import Mathlib

/-!
# Issuance core of the certificate authority (`ca/certificate-authority.go`)

A shallow embedding of `CertificateAuthorityImpl.IssueCertificate`.

* The four collaborators (`PA`, `DB`, `Signer`, `SA`) are interfaces in the source.
  They are embedded as deterministic transition functions over one shared world
  state `σ`: a call receives the current world and hands back its Go results and
  the next world.  Nothing is assumed about them.
* Every collaborator call, with its arguments and results, and every audit-log call
  is appended to a trace, so that "is invoked", "before" and "exactly once" are
  statements about a list.
* What the collaborators themselves receive is read off a journal they keep (`recording`,
  `calls`): the run over the recording collaborators returns the same results
  (`recording_run`), its journal is the trace without the audit-log calls (`calls_eq`), and
  every entry states an answer the collaborator of `ca` gave (`calls_answered`).
* `fmt.Sprintf("%02X%014X", …)`, `pem.EncodeToMemory` and `pem.Decode` belong to the Go
  standard library.  The integer formatting is embedded from `fmt`'s integer
  formatter; the two PEM functions are parameters of `IssueCertificate`.
-/

namespace Boulder

/-! ## Go values -/

/-- A Go `[]byte` (a `nil` slice and an empty slice are both `[]`; the source only
ever takes `len` of one). -/
abbrev Bytes := List UInt8

/-- An error value owned by a collaborator (whatever `WillingToIssue`, `Begin`,
`IncrementAndGetSerial`, `Sign`, `AddCertificate`, `Commit`, `Rollback` hand back). -/
structure CollabError where
  msg : String
deriving DecidableEq, Repr

/-- A Go `error` as `IssueCertificate` can return it.  `errors.New` allocates a fresh
value on every call, so an error built inside `IssueCertificate` is never identical to
one a collaborator returned: the two origins are two constructors. -/
inductive GoError where
  | errorsNew (text : String)
  | fromCollaborator (e : CollabError)
deriving DecidableEq, Repr

/-- The text of an error (`err.Error()`). -/
def GoError.Error : GoError → String
  | .errorsNew text => text
  | .fromCollaborator e => e.msg

/-! ## `core` and `signer` data -/

/-- The identifier type `core.IdentifierDNS` is the only one the source uses. -/
inductive IdentifierType where
  | IdentifierDNS
deriving DecidableEq, Repr

/-- An identifier as in `core.AcmeIdentifier{Type, Value}`. -/
structure AcmeIdentifier where
  type : IdentifierType
  Value : String
deriving DecidableEq, Repr

/-- The certificate status, `core.AcmeStatus`; the zero value is the empty string. -/
inductive AcmeStatus where
  | zero
  | StatusValid
deriving DecidableEq, Repr

/-- The result type `core.Certificate{DER, Status}`. -/
structure Certificate where
  DER : Bytes
  Status : AcmeStatus
deriving DecidableEq, Repr

/-- The zero value `core.Certificate{}`. -/
def Certificate.empty : Certificate := ⟨[], AcmeStatus.zero⟩

/-- The part of `pkix.Name` the source reads. -/
structure Name where
  CommonName : String
deriving DecidableEq, Repr

/-- The fields of `x509.CertificateRequest` the source reads. -/
structure CertificateRequest where
  Raw : Bytes
  Subject : Name
  DNSNames : List String
deriving DecidableEq, Repr

/-- A PEM block, `pem.Block{Type, Bytes}`. -/
structure Block where
  type : String
  bytes : Bytes
deriving DecidableEq, Repr

/-- The subject of a signing request, `signer.Subject{CN}`. -/
structure Subject where
  CN : String
deriving DecidableEq, Repr

/-- The request handed to the signer, `signer.SignRequest`. `Request` is the PEM text of
the CSR, kept as the bytes of the Go string. -/
structure SignRequest where
  Request : Bytes
  Profile : String
  Hosts : List String
  Subject : Subject
  SerialSeq : String
deriving DecidableEq, Repr

/-! ## `fmt.Sprintf("%02X%014X", prefix, serial)` -/

/-- The digit table `"0123456789ABCDEF"` of `fmt` for the verb `%X`. -/
def udigits : List Char :=
  ['0', '1', '2', '3', '4', '5', '6', '7', '8', '9', 'A', 'B', 'C', 'D', 'E', 'F']

/-- One upper-case hexadecimal digit, `udigits[d]`. -/
def hexDigit (d : Nat) : Char := udigits.getD d '0'

/-- The digit loop of `fmt.fmtInteger` for base 16, writing right to left:
`for u >= 16 { buf[i] = digits[u&0xF]; u >>= 4 }; buf[i] = digits[u]`.
The first argument bounds the number of iterations. -/
def fmtHexLoop : Nat → Nat → List Char → List Char
  | 0, _, buf => buf
  | fuel + 1, u, buf =>
    if u < 16 then hexDigit u :: buf
    else fmtHexLoop fuel (u / 16) (hexDigit (u % 16) :: buf)

/-- The digits of `u` in base 16, most significant first; never empty. `u + 1`
iterations always suffice. -/
def fmtHex (u : Nat) : List Char := fmtHexLoop (u + 1) u []

/-- The zero-extension loop of `fmt.fmtInteger`:
`for i > 0 && prec > len(buf)-i { buf[i] = '0' }`. -/
def zeroExtend (prec : Nat) (ds : List Char) : List Char :=
  List.replicate (prec - ds.length) '0' ++ ds

/-- The padding step `fmt.pad` with the zero flag switched off: blanks on the left up to
the width. -/
def padLeft (wid : Nat) (s : List Char) : List Char :=
  List.replicate (wid - s.length) ' ' ++ s

/-- The function `fmt.fmtInteger` for a signed integer under the verb `%0<wid>X`: the
magnitude is written in base 16, extended with zeros to `wid` digits (one fewer for a
negative number, to leave room for the sign), the sign is put in front, and the result
is padded to the width. A Go `int` has at most 64 bits and its magnitude is always
representable as `uint64`, so the magnitude is `Int.natAbs`. -/
def fmtInteger (wid : Nat) (a : Int) : List Char :=
  let negative := decide (a < 0)
  let u := a.natAbs
  let prec := if negative then wid - 1 else wid
  let digits := zeroExtend prec (fmtHex u)
  padLeft wid (if negative then '-' :: digits else digits)

/-- The serial string of line 125: `fmt.Sprintf("%02X%014X", ca.Prefix, serialDec)`. -/
def serialHex (pfx serialDec : Int) : String :=
  String.mk (fmtInteger 2 pfx ++ fmtInteger 14 serialDec)

/-- The value of a character as a hexadecimal digit (upper case only); `none` for any
other character. -/
def hexDigitValue (c : Char) : Option Nat :=
  let i := udigits.indexOf c
  if i < 16 then some i else none

/-- Reads a list of upper-case hexadecimal digits, most significant first, as a number;
`none` when a character is not such a digit. -/
def parseHex (cs : List Char) : Option Nat :=
  cs.foldl (fun acc c => acc.bind (fun v => (hexDigitValue c).map (fun d => 16 * v + d)))
    (some 0)

/-! ## Collaborators -/

/-- The interface `core.PolicyAuthority`: `WillingToIssue(id) error`. -/
structure PolicyAuthority (σ : Type) where
  WillingToIssue : AcmeIdentifier → σ → Option CollabError × σ

/-- The interface `core.CertificateAuthorityDatabase`: `Begin() error`, `Commit() error`,
`Rollback() error` and `IncrementAndGetSerial() (int, error)`. -/
structure CertificateAuthorityDatabase (σ : Type) where
  Begin : σ → Option CollabError × σ
  Commit : σ → Option CollabError × σ
  Rollback : σ → Option CollabError × σ
  IncrementAndGetSerial : σ → (Int × Option CollabError) × σ

/-- The interface `signer.Signer`, of which the source calls `Sign(req) ([]byte, error)`. -/
structure Signer (σ : Type) where
  Sign : SignRequest → σ → (Bytes × Option CollabError) × σ

/-- The interface `core.StorageAuthority`, of which the source calls
`AddCertificate(der) (id string, err error)`. -/
structure StorageAuthority (σ : Type) where
  AddCertificate : Bytes → σ → (String × Option CollabError) × σ

/-- The two functions of Go's `encoding/pem` the source calls. `Decode` returns the first
block found (or `nil`) and the rest of the input. -/
structure PemCodec where
  EncodeToMemory : Block → Bytes
  Decode : Bytes → Option Block × Bytes

/-- The struct `CertificateAuthorityImpl`. The audit logger `log` takes no part in the
control flow; its calls are recorded in the trace. All four collaborators are taken to be
present: with a `nil` collaborator the Go call panics, which is outside this embedding. -/
structure CertificateAuthorityImpl (σ : Type) where
  profile : String
  Signer : Signer σ
  SA : StorageAuthority σ
  PA : PolicyAuthority σ
  DB : CertificateAuthorityDatabase σ
  Prefix : Int

/-! ## Traces -/

/-- One observable step of `IssueCertificate`: a collaborator call with its arguments and
what it returned, or a call of the audit logger. -/
inductive Event where
  | WillingToIssue (id : AcmeIdentifier) (err : Option CollabError)
  | Begin (err : Option CollabError)
  | IncrementAndGetSerial (val : Int) (err : Option CollabError)
  | Sign (req : SignRequest) (resp : Bytes) (err : Option CollabError)
  | AddCertificate (der : Bytes) (id : String) (err : Option CollabError)
  | Commit (err : Option CollabError)
  | Rollback (err : Option CollabError)
  | WarningErr (e : GoError)
  | AuditErr (e : GoError)
deriving DecidableEq, Repr

/-- Is the event a call of `PA.WillingToIssue`? -/
def Event.isWillingToIssue : Event → Bool
  | .WillingToIssue _ _ => true
  | _ => false

/-- Is the event a call of `DB.Begin`? -/
def Event.isBegin : Event → Bool
  | .Begin _ => true
  | _ => false

/-- Is the event a call of `DB.IncrementAndGetSerial`? -/
def Event.isIncrementAndGetSerial : Event → Bool
  | .IncrementAndGetSerial _ _ => true
  | _ => false

/-- Is the event a call of `Signer.Sign`? -/
def Event.isSign : Event → Bool
  | .Sign _ _ _ => true
  | _ => false

/-- Is the event a call of `SA.AddCertificate`? -/
def Event.isAddCertificate : Event → Bool
  | .AddCertificate _ _ _ => true
  | _ => false

/-- Is the event a call of `DB.Commit`? -/
def Event.isCommit : Event → Bool
  | .Commit _ => true
  | _ => false

/-- Is the event a call of `DB.Rollback`? -/
def Event.isRollback : Event → Bool
  | .Rollback _ => true
  | _ => false

/-- Is the event a policy check that returned an error? -/
def Event.isRejection : Event → Bool
  | .WillingToIssue _ (some _) => true
  | _ => false

/-- What one call of `IssueCertificate` yields: the two Go results, the world the
collaborators are left in, and the calls made, oldest first. -/
structure Outcome (σ : Type) where
  cert : Certificate
  err : Option GoError
  world : σ
  trace : List Event

/-- What the loop over the host names yields. -/
structure LoopOutcome (σ : Type) where
  err : Option GoError
  world : σ
  trace : List Event

/-! ## `IssueCertificate` -/

/-- The identifier built at lines 98 and 105. -/
def dnsIdentifier (name : String) : AcmeIdentifier :=
  ⟨IdentifierType.IdentifierDNS, name⟩

/-- The loop of lines 104 to 111, `for _, name := range hostNames`: each name is put to
the policy authority; the first refusal ends the loop with the error of line 107, which
is also sent to the audit log. -/
def rangeHostNames {σ : Type} (ca : CertificateAuthorityImpl σ) :
    List String → σ → LoopOutcome σ
  | [], w => ⟨none, w, []⟩
  | name :: rest, w =>
    let identifier := dnsIdentifier name
    let r := ca.PA.WillingToIssue identifier w
    match r.1 with
    | some e =>
      let err := GoError.errorsNew ("Policy forbids issuing for name " ++ name)
      ⟨some err, r.2, [Event.WillingToIssue identifier (some e), Event.AuditErr err]⟩
    | none =>
      let next := rangeHostNames ca rest r.2
      ⟨next.err, next.world, Event.WillingToIssue identifier none :: next.trace⟩

/-- The method `CertificateAuthorityImpl.IssueCertificate` (lines 79 to 177). The named
results `cert` and `err` start as zero values; a bare `return` hands back whatever they
hold. The result of `ca.DB.Begin()`, of `ca.DB.Rollback()` and of `ca.DB.Commit()` is
discarded by the source. `len(s) > 0` on a Go string holds exactly when the string is
not empty. -/
def IssueCertificate {σ : Type} (pem : PemCodec) (ca : CertificateAuthorityImpl σ)
    (csr : CertificateRequest) (w : σ) : Outcome σ :=
  -- lines 82 to 92
  let hostNames := csr.DNSNames
  let commonName? : Option String :=
    if csr.Subject.CommonName.length > 0 then some csr.Subject.CommonName
    else match hostNames with
      | first :: _ => some first
      | [] => none
  match commonName? with
  | none =>
    let err := GoError.errorsNew "Cannot issue a certificate without a hostname."
    ⟨Certificate.empty, some err, w, [Event.WarningErr err]⟩
  | some commonName =>
    -- lines 94 to 96
    let hostNames := if hostNames.length = 0 then [commonName] else hostNames
    -- lines 98 to 103
    let identifier := dnsIdentifier commonName
    let r := ca.PA.WillingToIssue identifier w
    match r.1 with
    | some e =>
      let err := GoError.errorsNew ("Policy forbids issuing for name " ++ commonName)
      ⟨Certificate.empty, some err, r.2,
        [Event.WillingToIssue identifier (some e), Event.AuditErr err]⟩
    | none =>
      -- lines 104 to 111
      let loop := rangeHostNames ca hostNames r.2
      let t₁ := Event.WillingToIssue identifier none :: loop.trace
      match loop.err with
      | some err => ⟨Certificate.empty, some err, loop.world, t₁⟩
      | none =>
        -- lines 113 to 117
        let csrPEM := pem.EncodeToMemory ⟨"CERTIFICATE REQUEST", csr.Raw⟩
        -- lines 119 to 125
        let b := ca.DB.Begin loop.world
        let t₂ := t₁ ++ [Event.Begin b.1]
        let i := ca.DB.IncrementAndGetSerial b.2
        let serialDec := i.1.1
        let t₃ := t₂ ++ [Event.IncrementAndGetSerial serialDec i.1.2]
        match i.1.2 with
        | some e => ⟨Certificate.empty, some (GoError.fromCollaborator e), i.2, t₃⟩
        | none =>
          let serialHex := serialHex ca.Prefix serialDec
          -- lines 127 to 142
          let req : SignRequest :=
            { Request := csrPEM, Profile := ca.profile, Hosts := hostNames,
              Subject := ⟨commonName⟩, SerialSeq := serialHex }
          let s := ca.Signer.Sign req i.2
          let certPEM := s.1.1
          let t₄ := t₃ ++ [Event.Sign req certPEM s.1.2]
          match s.1.2 with
          | some e =>
            let rb := ca.DB.Rollback s.2
            ⟨Certificate.empty, some (GoError.fromCollaborator e), rb.2,
              t₄ ++ [Event.Rollback rb.1]⟩
          | none =>
            -- lines 144 to 149
            if certPEM.length = 0 then
              let err := GoError.errorsNew "No certificate returned by server"
              let rb := ca.DB.Rollback s.2
              ⟨Certificate.empty, some err, rb.2,
                t₄ ++ [Event.WarningErr err, Event.Rollback rb.1]⟩
            else
              -- lines 151 to 158
              let invalid (_ : Unit) : Outcome σ :=
                let err := GoError.errorsNew "Invalid certificate value returned"
                let rb := ca.DB.Rollback s.2
                ⟨Certificate.empty, some err, rb.2,
                  t₄ ++ [Event.WarningErr err, Event.Rollback rb.1]⟩
              match (pem.Decode certPEM).1 with
              | none => invalid ()
              | some block =>
                if block.type ≠ "CERTIFICATE" then invalid ()
                else
                  let certDER := block.bytes
                  -- lines 160 to 166; `err` is nil here, the test of line 164 never fires
                  let cert : Certificate := ⟨certDER, AcmeStatus.StatusValid⟩
                  -- lines 168 to 173
                  let a := ca.SA.AddCertificate certDER s.2
                  let t₅ := t₄ ++ [Event.AddCertificate certDER a.1.1 a.1.2]
                  match a.1.2 with
                  | some e =>
                    let rb := ca.DB.Rollback a.2
                    ⟨cert, some (GoError.fromCollaborator e), rb.2,
                      t₅ ++ [Event.Rollback rb.1]⟩
                  | none =>
                    -- lines 175 to 176
                    let c := ca.DB.Commit a.2
                    ⟨cert, none, c.2, t₅ ++ [Event.Commit c.1]⟩


/-! ## The shape of a run -/

/-- The value of `commonName` after line 92, when the call gets that far: the subject's
common name if it is not empty, otherwise the first DNS name. -/
def effectiveCommonName (csr : CertificateRequest) : Option String :=
  if csr.Subject.CommonName.length > 0 then some csr.Subject.CommonName
  else csr.DNSNames.head?

/-- The value of `hostNames` after line 96. -/
def effectiveHostNames (csr : CertificateRequest) (commonName : String) : List String :=
  if csr.DNSNames.length = 0 then [commonName] else csr.DNSNames

/-- The policy checks that returned `nil` for the given names, in order. -/
def approvals (names : List String) : List Event :=
  names.map (fun name => Event.WillingToIssue (dnsIdentifier name) none)

/-- The signing request assembled at lines 128 to 136. -/
def signRequest {σ : Type} (pem : PemCodec) (ca : CertificateAuthorityImpl σ)
    (csr : CertificateRequest) (commonName : String) (serialDec : Int) : SignRequest :=
  { Request := pem.EncodeToMemory ⟨"CERTIFICATE REQUEST", csr.Raw⟩
    Profile := ca.profile
    Hosts := effectiveHostNames csr commonName
    Subject := ⟨commonName⟩
    SerialSeq := serialHex ca.Prefix serialDec }

/-- The runs of `IssueCertificate`, one constructor for each `return` of the source: the
certificate and error handed back together with the trace of the call. -/
inductive Path {σ : Type} (pem : PemCodec) (ca : CertificateAuthorityImpl σ)
    (csr : CertificateRequest) : Certificate → Option GoError → List Event → Prop where
  /-- The `return` of line 91. -/
  | missingHostname :
    csr.Subject.CommonName = "" → csr.DNSNames = [] →
    Path pem ca csr Certificate.empty
      (some (GoError.errorsNew "Cannot issue a certificate without a hostname."))
      [Event.WarningErr (GoError.errorsNew "Cannot issue a certificate without a hostname.")]
  /-- The `return` of line 102 or of line 109. -/
  | policyRejection (cn : String) (pre : List String) (name : String) (post : List String)
      (e : CollabError) :
    effectiveCommonName csr = some cn →
    cn :: effectiveHostNames csr cn = pre ++ name :: post →
    Path pem ca csr Certificate.empty
      (some (GoError.errorsNew ("Policy forbids issuing for name " ++ name)))
      (approvals pre ++ [Event.WillingToIssue (dnsIdentifier name) (some e),
        Event.AuditErr (GoError.errorsNew ("Policy forbids issuing for name " ++ name))])
  /-- The `return` of line 123. -/
  | serialFailure (cn : String) (b : Option CollabError) (v : Int) (e : CollabError) :
    effectiveCommonName csr = some cn →
    Path pem ca csr Certificate.empty (some (GoError.fromCollaborator e))
      (approvals (cn :: effectiveHostNames csr cn) ++
        [Event.Begin b, Event.IncrementAndGetSerial v (some e)])
  /-- The `return` of line 141. -/
  | signFailure (cn : String) (b : Option CollabError) (v : Int) (resp : Bytes)
      (e : CollabError) (r : Option CollabError) :
    effectiveCommonName csr = some cn →
    Path pem ca csr Certificate.empty (some (GoError.fromCollaborator e))
      (approvals (cn :: effectiveHostNames csr cn) ++
        [Event.Begin b, Event.IncrementAndGetSerial v none,
          Event.Sign (signRequest pem ca csr cn v) resp (some e), Event.Rollback r])
  /-- The `return` of line 148. -/
  | emptyResponse (cn : String) (b : Option CollabError) (v : Int) (r : Option CollabError) :
    effectiveCommonName csr = some cn →
    Path pem ca csr Certificate.empty
      (some (GoError.errorsNew "No certificate returned by server"))
      (approvals (cn :: effectiveHostNames csr cn) ++
        [Event.Begin b, Event.IncrementAndGetSerial v none,
          Event.Sign (signRequest pem ca csr cn v) [] none,
          Event.WarningErr (GoError.errorsNew "No certificate returned by server"),
          Event.Rollback r])
  /-- The `return` of line 156. -/
  | invalidCertificate (cn : String) (b : Option CollabError) (v : Int) (resp : Bytes)
      (r : Option CollabError) :
    effectiveCommonName csr = some cn →
    resp ≠ [] →
    (∀ block, (pem.Decode resp).1 = some block → block.type ≠ "CERTIFICATE") →
    Path pem ca csr Certificate.empty
      (some (GoError.errorsNew "Invalid certificate value returned"))
      (approvals (cn :: effectiveHostNames csr cn) ++
        [Event.Begin b, Event.IncrementAndGetSerial v none,
          Event.Sign (signRequest pem ca csr cn v) resp none,
          Event.WarningErr (GoError.errorsNew "Invalid certificate value returned"),
          Event.Rollback r])
  /-- The `return` of line 172. -/
  | storageFailure (cn : String) (b : Option CollabError) (v : Int) (resp : Bytes)
      (block : Block) (id : String) (e : CollabError) (r : Option CollabError) :
    effectiveCommonName csr = some cn →
    resp ≠ [] →
    (pem.Decode resp).1 = some block → block.type = "CERTIFICATE" →
    Path pem ca csr ⟨block.bytes, AcmeStatus.StatusValid⟩ (some (GoError.fromCollaborator e))
      (approvals (cn :: effectiveHostNames csr cn) ++
        [Event.Begin b, Event.IncrementAndGetSerial v none,
          Event.Sign (signRequest pem ca csr cn v) resp none,
          Event.AddCertificate block.bytes id (some e), Event.Rollback r])
  /-- The `return` of line 176. -/
  | issued (cn : String) (b : Option CollabError) (v : Int) (resp : Bytes)
      (block : Block) (id : String) (c : Option CollabError) :
    effectiveCommonName csr = some cn →
    resp ≠ [] →
    (pem.Decode resp).1 = some block → block.type = "CERTIFICATE" →
    Path pem ca csr ⟨block.bytes, AcmeStatus.StatusValid⟩ none
      (approvals (cn :: effectiveHostNames csr cn) ++
        [Event.Begin b, Event.IncrementAndGetSerial v none,
          Event.Sign (signRequest pem ca csr cn v) resp none,
          Event.AddCertificate block.bytes id none, Event.Commit c])

/-! ## Collaborators for concrete runs

The world of these collaborators is the serial counter. -/

/-- A policy authority that refuses exactly the listed names. -/
def denyListPA (denied : List String) : PolicyAuthority Int where
  WillingToIssue := fun id w =>
    (if id.Value ∈ denied then some ⟨"name is blacklisted"⟩ else none, w)

/-- A serial counter without transaction checks: `IncrementAndGetSerial` either fails, or
adds one to the counter and returns it. -/
def counterDB (failIncrement : Bool) : CertificateAuthorityDatabase Int where
  Begin := fun w => (none, w)
  Commit := fun w => (none, w)
  Rollback := fun w => (none, w)
  IncrementAndGetSerial := fun w =>
    if failIncrement then ((0, some ⟨"database is locked"⟩), w) else ((w + 1, none), w + 1)

/-- A signer that answers every request with the same response and error. -/
def cannedSigner (resp : Bytes) (err : Option CollabError) : Signer Int where
  Sign := fun _ w => ((resp, err), w)

/-- A storage authority that answers every call with the same error. -/
def cannedSA (err : Option CollabError) : StorageAuthority Int where
  AddCertificate := fun _ w => (("id", err), w)

/-- A stand-in for `encoding/pem` at concrete inputs: a block is written as one tag byte
(1 for `CERTIFICATE`, 2 for `CERTIFICATE REQUEST`, 3 for any other type) followed by its
bytes, and input that does not start with such a tag holds no block. -/
def tagPem : PemCodec where
  EncodeToMemory := fun block =>
    (if block.type = "CERTIFICATE" then 1
      else if block.type = "CERTIFICATE REQUEST" then 2 else 3) :: block.bytes
  Decode := fun data =>
    match data with
    | 1 :: rest => (some ⟨"CERTIFICATE", rest⟩, [])
    | 2 :: rest => (some ⟨"CERTIFICATE REQUEST", rest⟩, [])
    | 3 :: rest => (some ⟨"PRIVATE KEY", rest⟩, [])
    | _ => (none, data)

/-- A certificate authority with shard prefix 1 over the collaborators above. -/
def testCA (denied : List String) (failIncrement : Bool) (resp : Bytes)
    (signErr addErr : Option CollabError) : CertificateAuthorityImpl Int where
  profile := "ee"
  Signer := cannedSigner resp signErr
  SA := cannedSA addErr
  PA := denyListPA denied
  DB := counterDB failIncrement
  Prefix := 1

/-- A request with the single DNS name `example.com` and no common name. -/
def exampleCSR : CertificateRequest := ⟨[48, 0], ⟨""⟩, ["example.com"]⟩

/-- A request with the single DNS name `evil.com` and no common name. -/
def evilCSR : CertificateRequest := ⟨[48, 0], ⟨""⟩, ["evil.com"]⟩

/-- A database stub whose `Begin` and `Commit` answer with the given errors; the serial
counter is the world, and `IncrementAndGetSerial` adds one to it. -/
def stubDB (beginErr commitErr : Option CollabError) : CertificateAuthorityDatabase Int where
  Begin := fun w => (beginErr, w)
  Commit := fun w => (commitErr, w)
  Rollback := fun w => (none, w)
  IncrementAndGetSerial := fun w => ((w + 1, none), w + 1)

/-- A certificate authority with shard prefix 1 over `stubDB`, a policy that approves every
name, a signer that answers with a `CERTIFICATE` block holding the bytes 7, 7, and a
storage authority that succeeds. -/
def stubCA (beginErr commitErr : Option CollabError) : CertificateAuthorityImpl Int where
  profile := "ee"
  Signer := cannedSigner [1, 7, 7] none
  SA := cannedSA none
  PA := denyListPA []
  DB := stubDB beginErr commitErr
  Prefix := 1

/-! ## Order of calls in a trace -/

/-- Every entry of the trace that satisfies `q` has an entry that satisfies `p` somewhere
before it. -/
def Precedes (p q : Event → Bool) (trace : List Event) : Prop :=
  ∀ front ev rest, trace = front ++ ev :: rest → q ev = true → ∃ x ∈ front, p x = true

/-- A left-to-right check of `Precedes`: `seen` tells whether an entry that satisfies `p` has
been passed. -/
def precedesFrom (p q : Event → Bool) : Bool → List Event → Bool
  | _, [] => true
  | seen, ev :: rest => (!q ev || seen) && precedesFrom p q (seen || p ev) rest

/-! ## The serial allocator -/

/-- Modelled from the spec: the state of the serial allocator
`CertificateAuthorityDatabaseImpl`, whose source file is not among the sources (only its
tests are). Section 3: a durable counter, and a transaction that is Idle or Active; `serial`
is the persisted counter, `activeTx` is `none` when Idle and holds the counter value inside
the transaction when Active. -/
structure CertificateAuthorityDatabaseImpl where
  serial : Int
  activeTx : Option Int
deriving DecidableEq, Repr

/-- Modelled from the spec: the error `AlreadyActiveError` of section 4.1. -/
def AlreadyActiveError : CollabError := ⟨"transaction already active"⟩

/-- Modelled from the spec: the error `NoActiveTransactionError` of section 4.1. -/
def NoActiveTransactionError : CollabError := ⟨"no active transaction"⟩

/-- Modelled from the spec: `Begin()` of section 4.1, "transitions Idle → Active. Fails with
AlreadyActiveError if a transaction is already Active". -/
def CertificateAuthorityDatabaseImpl.Begin (db : CertificateAuthorityDatabaseImpl) :
    Option CollabError × CertificateAuthorityDatabaseImpl :=
  match db.activeTx with
  | none => (none, { db with activeTx := some db.serial })
  | some _ => (some AlreadyActiveError, db)

/-- Modelled from the spec: `IncrementAndGetSerial()` of section 4.1, "returns the next
counter value (current + 1) and durably persists the increment as part of the active
transaction. Fails with NoActiveTransactionError if called while Idle". -/
def CertificateAuthorityDatabaseImpl.IncrementAndGetSerial
    (db : CertificateAuthorityDatabaseImpl) :
    (Int × Option CollabError) × CertificateAuthorityDatabaseImpl :=
  match db.activeTx with
  | none => ((0, some NoActiveTransactionError), db)
  | some v => ((v + 1, none), { db with activeTx := some (v + 1) })

/-- Modelled from the spec: `Commit()` of section 4.1, "durably finalizes all increments
performed in the active transaction and transitions Active → Idle. Fails with
NoActiveTransactionError if not Active". -/
def CertificateAuthorityDatabaseImpl.Commit (db : CertificateAuthorityDatabaseImpl) :
    Option CollabError × CertificateAuthorityDatabaseImpl :=
  match db.activeTx with
  | none => (some NoActiveTransactionError, db)
  | some v => (none, { serial := v, activeTx := none })

/-- Modelled from the spec: `Rollback()` of section 4.1, "discards all increments performed
in the active transaction (the persisted counter reverts to its pre-transaction value) and
transitions Active → Idle"; of the two behaviours the spec allows for a call while Idle,
this one reports `NoActiveTransactionError` and changes nothing. -/
def CertificateAuthorityDatabaseImpl.Rollback (db : CertificateAuthorityDatabaseImpl) :
    Option CollabError × CertificateAuthorityDatabaseImpl :=
  match db.activeTx with
  | none => (some NoActiveTransactionError, db)
  | some _ => (none, { db with activeTx := none })

/-- Modelled from the spec: the allocator of section 4.1 as an implementation of the
interface `core.CertificateAuthorityDatabase`. -/
def allocatorDB : CertificateAuthorityDatabase CertificateAuthorityDatabaseImpl where
  Begin := CertificateAuthorityDatabaseImpl.Begin
  Commit := CertificateAuthorityDatabaseImpl.Commit
  Rollback := CertificateAuthorityDatabaseImpl.Rollback
  IncrementAndGetSerial := CertificateAuthorityDatabaseImpl.IncrementAndGetSerial

/-- Modelled from the spec: the values returned by `n` calls of `IncrementAndGetSerial` made
one after the other, stopping at the first call that fails. -/
def allocations : Nat → CertificateAuthorityDatabaseImpl → List Int
  | 0, _ => []
  | n + 1, db =>
    match db.IncrementAndGetSerial with
    | ((v, none), db') => v :: allocations n db'
    | ((_, some _), _) => []

/-! ## Calls as the collaborators see them -/

/-- Is the entry a call of a collaborator, as opposed to a call of the audit logger? -/
def Event.isCall : Event → Bool
  | .WarningErr _ => false
  | .AuditErr _ => false
  | _ => true

/-- The collaborators of `ca`, each keeping a journal: the world is the world of `ca`
together with the list of the calls received so far, and every call runs the collaborator
of `ca` on the world it is given and then writes down the arguments it received and the
results it returned. An entry of the journal exists only if the collaborator was called. -/
def recording {σ : Type} (ca : CertificateAuthorityImpl σ) :
    CertificateAuthorityImpl (σ × List Event) where
  profile := ca.profile
  Signer := ⟨fun req s =>
    ((ca.Signer.Sign req s.1).1,
      ((ca.Signer.Sign req s.1).2,
        s.2 ++ [Event.Sign req (ca.Signer.Sign req s.1).1.1 (ca.Signer.Sign req s.1).1.2]))⟩
  SA := ⟨fun der s =>
    ((ca.SA.AddCertificate der s.1).1,
      ((ca.SA.AddCertificate der s.1).2,
        s.2 ++ [Event.AddCertificate der (ca.SA.AddCertificate der s.1).1.1
          (ca.SA.AddCertificate der s.1).1.2]))⟩
  PA := ⟨fun id s =>
    ((ca.PA.WillingToIssue id s.1).1,
      ((ca.PA.WillingToIssue id s.1).2,
        s.2 ++ [Event.WillingToIssue id (ca.PA.WillingToIssue id s.1).1]))⟩
  DB :=
    { Begin := fun s =>
        ((ca.DB.Begin s.1).1, ((ca.DB.Begin s.1).2, s.2 ++ [Event.Begin (ca.DB.Begin s.1).1]))
      Commit := fun s =>
        ((ca.DB.Commit s.1).1,
          ((ca.DB.Commit s.1).2, s.2 ++ [Event.Commit (ca.DB.Commit s.1).1]))
      Rollback := fun s =>
        ((ca.DB.Rollback s.1).1,
          ((ca.DB.Rollback s.1).2, s.2 ++ [Event.Rollback (ca.DB.Rollback s.1).1]))
      IncrementAndGetSerial := fun s =>
        ((ca.DB.IncrementAndGetSerial s.1).1,
          ((ca.DB.IncrementAndGetSerial s.1).2,
            s.2 ++ [Event.IncrementAndGetSerial (ca.DB.IncrementAndGetSerial s.1).1.1
              (ca.DB.IncrementAndGetSerial s.1).1.2])) }
  Prefix := ca.Prefix

/-- The calls the collaborators of `ca` received during `IssueCertificate`, oldest first, as
they wrote them down themselves: the journal left by the run over `recording ca`. -/
def calls {σ : Type} (pem : PemCodec) (ca : CertificateAuthorityImpl σ)
    (csr : CertificateRequest) (w : σ) : List Event :=
  (IssueCertificate pem (recording ca) csr (w, [])).world.2

/-- The entry states a call with results that the named collaborator of `ca` does give to
these arguments in some world. -/
def Answered {σ : Type} (ca : CertificateAuthorityImpl σ) : Event → Prop
  | .WillingToIssue id r => ∃ s, (ca.PA.WillingToIssue id s).1 = r
  | .Begin r => ∃ s, (ca.DB.Begin s).1 = r
  | .IncrementAndGetSerial v r => ∃ s, (ca.DB.IncrementAndGetSerial s).1 = (v, r)
  | .Sign req resp r => ∃ s, (ca.Signer.Sign req s).1 = (resp, r)
  | .AddCertificate der id r => ∃ s, (ca.SA.AddCertificate der s).1 = (id, r)
  | .Commit r => ∃ s, (ca.DB.Commit s).1 = r
  | .Rollback r => ∃ s, (ca.DB.Rollback s).1 = r
  | .WarningErr _ => True
  | .AuditErr _ => True

/-! ## Collaborators that keep books

The world of these collaborators is a ledger: every call leaves a mark in it, so the world
after a run tells which calls were made and with what. -/

/-- The ledger: the serial allocator of section 4.1 of the spec, the names put to the
policy authority, the requests the signer received, and the certificates the storage
authority holds. -/
structure Ledger where
  db : CertificateAuthorityDatabaseImpl
  asked : List String
  signed : List SignRequest
  stored : List Bytes
deriving DecidableEq, Repr

/-- A ledger before any call, with the counter at `serial` and no transaction active. -/
def Ledger.fresh (serial : Int) : Ledger := ⟨⟨serial, none⟩, [], [], []⟩

/-- The characters of a string as bytes. -/
def stringBytes (s : String) : Bytes := s.data.map (fun c => c.toNat.toUInt8)

/-- A signer that answers with a `CERTIFICATE` block, in the encoding of `tagPem`, whose
bytes are the characters of the serial string of the request it was given. -/
def echoSign (req : SignRequest) : Bytes × Option CollabError :=
  (1 :: stringBytes req.SerialSeq, none)

/-- A certificate authority with shard prefix 1 over the ledger: the policy authority
refuses exactly the listed names and notes every name it is asked about; the database is
the allocator of section 4.1; the signer answers by `sign` and notes the request; the
storage authority answers with `addErr` and keeps the certificate when that is `nil`. -/
def ledgerCA (denied : List String) (sign : SignRequest → Bytes × Option CollabError)
    (addErr : Option CollabError) : CertificateAuthorityImpl Ledger where
  profile := "ee"
  Signer := ⟨fun req w => (sign req, { w with signed := w.signed ++ [req] })⟩
  SA := ⟨fun der w =>
    (("id", addErr), if addErr = none then { w with stored := w.stored ++ [der] } else w)⟩
  PA := ⟨fun id w =>
    (if id.Value ∈ denied then some ⟨"name is blacklisted"⟩ else none,
      { w with asked := w.asked ++ [id.Value] })⟩
  DB :=
    { Begin := fun w => (w.db.Begin.1, { w with db := w.db.Begin.2 })
      Commit := fun w => (w.db.Commit.1, { w with db := w.db.Commit.2 })
      Rollback := fun w => (w.db.Rollback.1, { w with db := w.db.Rollback.2 })
      IncrementAndGetSerial := fun w =>
        (w.db.IncrementAndGetSerial.1, { w with db := w.db.IncrementAndGetSerial.2 }) }
  Prefix := 1

/-- A request with the common name `good.example` and the DNS names `ok.example`,
`evil.com` and `later.example`. -/
def multiCSR : CertificateRequest :=
  ⟨[48, 0], ⟨"good.example"⟩, ["ok.example", "evil.com", "later.example"]⟩

/-- A request with no common name and the DNS names `example.com` and `www.example.com`. -/
def twoNameCSR : CertificateRequest := ⟨[48, 0], ⟨""⟩, ["example.com", "www.example.com"]⟩

/-! ## The loop and the shape of a run -/

/-- The loop over the host names either approves every name, or stops at the first name
the policy authority refuses. -/
theorem rangeHostNames_spec {σ : Type} (ca : CertificateAuthorityImpl σ) (names : List String)
    (w : σ) :
    ((rangeHostNames ca names w).err = none ∧
        (rangeHostNames ca names w).trace = approvals names) ∨
      ∃ pre name post e, names = pre ++ name :: post ∧
        (rangeHostNames ca names w).err =
          some (GoError.errorsNew ("Policy forbids issuing for name " ++ name)) ∧
        (rangeHostNames ca names w).trace =
          approvals pre ++ [Event.WillingToIssue (dnsIdentifier name) (some e),
            Event.AuditErr (GoError.errorsNew ("Policy forbids issuing for name " ++ name))] := by
  induction names generalizing w with
  | nil => left; simp [rangeHostNames, approvals]
  | cons name rest ih =>
    unfold rangeHostNames
    cases hr : (ca.PA.WillingToIssue (dnsIdentifier name) w).1 with
    | some e =>
      right
      refine ⟨[], name, rest, e, by simp, ?_, ?_⟩ <;> simp [hr, approvals]
    | none =>
      rcases ih (ca.PA.WillingToIssue (dnsIdentifier name) w).2 with ⟨h1, h2⟩ | ⟨pre, nm, post, e, h1, h2, h3⟩
      · left; simp [hr, h1, h2, approvals]
      · right
        refine ⟨name :: pre, nm, post, e, by simp [h1], ?_, ?_⟩ <;> simp [hr, h2, h3, approvals]

theorem effectiveCommonName_eq_none (csr : CertificateRequest)
    (h : effectiveCommonName csr = none) : csr.Subject.CommonName = "" ∧ csr.DNSNames = [] := by
  unfold effectiveCommonName at h
  split at h
  · simp at h
  · rename_i hlen
    constructor
    · have : csr.Subject.CommonName.length = 0 := by omega
      exact String.ext (List.length_eq_zero.mp this)
    · simpa using h

theorem IssueCertificate_path {σ : Type} (pem : PemCodec) (ca : CertificateAuthorityImpl σ)
    (csr : CertificateRequest) (w : σ) :
    Path pem ca csr (IssueCertificate pem ca csr w).cert (IssueCertificate pem ca csr w).err
      (IssueCertificate pem ca csr w).trace := by
  have hcn : (if csr.Subject.CommonName.length > 0 then some csr.Subject.CommonName
      else match csr.DNSNames with
        | first :: _ => some first
        | [] => none) = effectiveCommonName csr := by
    unfold effectiveCommonName
    split
    · rfl
    · cases csr.DNSNames <;> rfl
  unfold IssueCertificate
  simp only [hcn]
  cases hc : effectiveCommonName csr with
  | none =>
    obtain ⟨h1, h2⟩ := effectiveCommonName_eq_none csr hc
    exact Path.missingHostname h1 h2
  | some cn =>
    have hh : (if csr.DNSNames.length = 0 then [cn] else csr.DNSNames) =
        effectiveHostNames csr cn := rfl
    simp only [hh]
    cases h1 : (ca.PA.WillingToIssue (dnsIdentifier cn) w).1 with
    | some e =>
      simp only []
      exact Path.policyRejection cn [] cn (effectiveHostNames csr cn) e hc rfl
    | none =>
      simp only []
      rcases rangeHostNames_spec ca (effectiveHostNames csr cn)
        (ca.PA.WillingToIssue (dnsIdentifier cn) w).2 with ⟨h2, h3⟩ | ⟨pre, nm, post, e, h2, h3, h4⟩
      · simp only [h2, h3]
        generalize (rangeHostNames ca (effectiveHostNames csr cn)
          (ca.PA.WillingToIssue (dnsIdentifier cn) w).2).world = w₂
        generalize ca.DB.Begin w₂ = rb
        generalize ca.DB.IncrementAndGetSerial rb.2 = ri
        obtain ⟨⟨v, ie⟩, w₄⟩ := ri
        have hreq : SignRequest.mk (pem.EncodeToMemory ⟨"CERTIFICATE REQUEST", csr.Raw⟩)
            ca.profile (effectiveHostNames csr cn) ⟨cn⟩ (serialHex ca.Prefix v) =
            signRequest pem ca csr cn v := rfl
        simp only [hreq]
        cases ie with
        | some e =>
          have := @Path.serialFailure σ pem ca csr cn rb.1 v e hc
          simpa [approvals] using this
        | none =>
          simp only []
          generalize ca.Signer.Sign (signRequest pem ca csr cn v) w₄ = rs
          obtain ⟨⟨resp, se⟩, w₅⟩ := rs
          cases se with
          | some e =>
            have := @Path.signFailure σ pem ca csr cn rb.1 v resp e (ca.DB.Rollback w₅).1 hc
            simpa [approvals] using this
          | none =>
            simp only []
            by_cases hlen : resp.length = 0
            · have hnil : resp = [] := List.length_eq_zero.mp hlen
              subst hnil
              have := @Path.emptyResponse σ pem ca csr cn rb.1 v (ca.DB.Rollback w₅).1 hc
              simpa [approvals] using this
            · have hne : resp ≠ [] := fun h => hlen (by simp [h])
              rw [if_neg hlen]
              cases hd : (pem.Decode resp).1 with
              | none =>
                have := @Path.invalidCertificate σ pem ca csr cn rb.1 v resp
                  (ca.DB.Rollback w₅).1 hc hne (by simp [hd])
                simpa [approvals] using this
              | some block =>
                simp only []
                by_cases ht : block.type = "CERTIFICATE"
                · rw [if_neg (by simpa using ht)]
                  generalize ca.SA.AddCertificate block.bytes w₅ = ra
                  obtain ⟨⟨id, ae⟩, w₆⟩ := ra
                  cases ae with
                  | some e =>
                    have := @Path.storageFailure σ pem ca csr cn rb.1 v resp block id e
                      (ca.DB.Rollback w₆).1 hc hne hd ht
                    simpa [approvals] using this
                  | none =>
                    have := @Path.issued σ pem ca csr cn rb.1 v resp block id
                      (ca.DB.Commit w₆).1 hc hne hd ht
                    simpa [approvals] using this
                · rw [if_pos ht]
                  have := @Path.invalidCertificate σ pem ca csr cn rb.1 v resp
                    (ca.DB.Rollback w₅).1 hc hne (by simp [hd, ht])
                  simpa [approvals] using this
      · simp only [h3, h4]
        have := @Path.policyRejection σ pem ca csr cn (cn :: pre) nm post e hc (by simp [h2])
        simpa [approvals] using this

/-! ## Traces of a run -/

/-- A run read as its three observable parts. -/
theorem run_shape {σ : Type} (pem : PemCodec) (ca : CertificateAuthorityImpl σ)
    (csr : CertificateRequest) (w : σ) :
    ∃ c e t, (IssueCertificate pem ca csr w).cert = c ∧ (IssueCertificate pem ca csr w).err = e ∧
      (IssueCertificate pem ca csr w).trace = t ∧ Path pem ca csr c e t :=
  ⟨_, _, _, rfl, rfl, rfl, IssueCertificate_path pem ca csr w⟩

theorem mem_approvals (ev : Event) (names : List String) :
    ev ∈ approvals names ↔ ∃ name ∈ names, ev = Event.WillingToIssue (dnsIdentifier name) none := by
  simp [approvals, eq_comm]

theorem countP_approvals (p : Event → Bool) (names : List String)
    (hp : ∀ id r, p (Event.WillingToIssue id r) = false) : (approvals names).countP p = 0 := by
  rw [List.countP_eq_zero]
  intro ev hev
  obtain ⟨name, _, rfl⟩ := (mem_approvals ev names).mp hev
  simp [hp]

theorem effectiveCommonName_of_named (csr : CertificateRequest)
    (h : csr.Subject.CommonName ≠ "" ∨ csr.DNSNames ≠ []) : effectiveCommonName csr ≠ none := by
  intro hn
  obtain ⟨h1, h2⟩ := effectiveCommonName_eq_none csr hn
  rcases h with h | h
  · exact h h1
  · exact h h2

theorem policy_text_ne (name : String) :
    "Policy forbids issuing for name " ++ name ≠
      "Cannot issue a certificate without a hostname." := by
  intro h
  have := congrArg String.data h
  simp [String.data_append] at this

/-- A `Sign` entry never lies among the approvals at the front of a trace: a split of the
trace around a `Sign` entry puts all approvals before it. -/
theorem approvals_split_sign (names : List String) (tail pre post : List Event)
    (req : SignRequest) (resp : Bytes) (se : Option CollabError)
    (h : approvals names ++ tail = pre ++ Event.Sign req resp se :: post) :
    ∃ mid, pre = approvals names ++ mid ∧ tail = mid ++ Event.Sign req resp se :: post := by
  induction names generalizing pre with
  | nil => exact ⟨pre, by simp [approvals], by simpa [approvals] using h⟩
  | cons n ns ih =>
    cases pre with
    | nil => simp [approvals] at h
    | cons p ps =>
      simp only [approvals, List.map_cons, List.cons_append, List.cons.injEq] at h
      obtain ⟨hp, hrest⟩ := h
      obtain ⟨mid, h1, h2⟩ := ih ps hrest
      exact ⟨mid, by simp [approvals, hp, h1], h2⟩

/-- In a list whose third element is the only one equal to `x`, a split around `x` is the
split at the third element. -/
theorem split_at_third (a b s x : Event) (rest mid post : List Event) (ha : a ≠ x) (hb : b ≠ x)
    (hrest : x ∉ rest) (h : a :: b :: s :: rest = mid ++ x :: post) :
    mid = [a, b] ∧ x = s := by
  rcases mid with _ | ⟨m₁, _ | ⟨m₂, _ | ⟨m₃, mid⟩⟩⟩
  · simp at h; exact absurd h.1 ha
  · simp at h; exact absurd h.2.1 hb
  · simp at h; simp [h.1, h.2.1, h.2.2.1]
  · simp at h
    exact absurd (by rw [h.2.2.2]; simp) hrest

/-- Whenever `IncrementAndGetSerial` fails, the call ends right there: the failure is the
last entry of the trace, `Begin` was called before it, `Rollback` is not called, and the
error is handed to the caller. -/
theorem serial_failure_skips_rollback {σ : Type} (pem : PemCodec)
    (ca : CertificateAuthorityImpl σ) (csr : CertificateRequest) (w : σ) (v : Int)
    (e : CollabError)
    (h : Event.IncrementAndGetSerial v (some e) ∈ (IssueCertificate pem ca csr w).trace) :
    (IssueCertificate pem ca csr w).err = some (GoError.fromCollaborator e) ∧
      (IssueCertificate pem ca csr w).trace.countP Event.isBegin = 1 ∧
      (IssueCertificate pem ca csr w).trace.countP Event.isRollback = 0 := by
  obtain ⟨c, e', t, -, he, ht, hp⟩ := run_shape pem ca csr w
  rw [ht] at h
  rw [he, ht]
  cases hp <;> simp [mem_approvals] at h
  obtain ⟨-, rfl⟩ := h
  simp [List.countP_append, List.countP_cons, countP_approvals, Event.isBegin,
    Event.isRollback]

/-- Every call that returns an error after `Begin` was called, and in which
`IncrementAndGetSerial` did not fail, ends with exactly one `Rollback` as the last entry
of its trace. -/
theorem error_after_begin_rolls_back {σ : Type} (pem : PemCodec)
    (ca : CertificateAuthorityImpl σ) (csr : CertificateRequest) (w : σ)
    (herr : (IssueCertificate pem ca csr w).err ≠ none)
    (hbegin : ∃ b, Event.Begin b ∈ (IssueCertificate pem ca csr w).trace)
    (hserial : ∀ v e,
      Event.IncrementAndGetSerial v (some e) ∉ (IssueCertificate pem ca csr w).trace) :
    (∃ front r, (IssueCertificate pem ca csr w).trace = front ++ [Event.Rollback r]) ∧
      (IssueCertificate pem ca csr w).trace.countP Event.isRollback = 1 := by
  obtain ⟨c, e', t, -, he, ht, hp⟩ := run_shape pem ca csr w
  obtain ⟨b, hb⟩ := hbegin
  rw [ht] at hb hserial
  rw [he] at herr
  rw [ht]
  cases hp <;> simp [mem_approvals] at hb herr
  case serialFailure cn b' v ce h1 => exact absurd (by simp) (hserial v ce)
  case signFailure cn b' v resp ce r h1 =>
    exact ⟨⟨approvals (cn :: effectiveHostNames csr cn) ++
      [Event.Begin b', Event.IncrementAndGetSerial v none,
        Event.Sign (signRequest pem ca csr cn v) resp (some ce)], r, by simp⟩,
      by simp [List.countP_append, List.countP_cons, countP_approvals, Event.isRollback]⟩
  case emptyResponse cn b' v r h1 =>
    exact ⟨⟨approvals (cn :: effectiveHostNames csr cn) ++
      [Event.Begin b', Event.IncrementAndGetSerial v none,
        Event.Sign (signRequest pem ca csr cn v) [] none,
        Event.WarningErr (GoError.errorsNew "No certificate returned by server")], r, by simp⟩,
      by simp [List.countP_append, List.countP_cons, countP_approvals, Event.isRollback]⟩
  case invalidCertificate cn b' v resp r h1 h2 h3 =>
    exact ⟨⟨approvals (cn :: effectiveHostNames csr cn) ++
      [Event.Begin b', Event.IncrementAndGetSerial v none,
        Event.Sign (signRequest pem ca csr cn v) resp none,
        Event.WarningErr (GoError.errorsNew "Invalid certificate value returned")], r, by simp⟩,
      by simp [List.countP_append, List.countP_cons, countP_approvals, Event.isRollback]⟩
  case storageFailure cn b' v resp block id ce r h1 h2 h3 h4 =>
    exact ⟨⟨approvals (cn :: effectiveHostNames csr cn) ++
      [Event.Begin b', Event.IncrementAndGetSerial v none,
        Event.Sign (signRequest pem ca csr cn v) resp none,
        Event.AddCertificate block.bytes id (some ce)], r, by simp⟩,
      by simp [List.countP_append, List.countP_cons, countP_approvals, Event.isRollback]⟩

/-! ## The serial string -/

theorem hexDigitValue_hexDigit (d : Nat) (h : d < 16) : hexDigitValue (hexDigit d) = some d := by
  interval_cases d <;> decide

theorem hexDigit_mem (d : Nat) (h : d < 16) : hexDigit d ∈ udigits := by
  interval_cases d <;> decide

/-- The digit loop writes the base-16 digits of Mathlib's `Nat.digits`, most significant
first, in front of the buffer; zero is written `0`. -/
theorem fmtHexLoop_eq (fuel u : Nat) (buf : List Char) (h : u < fuel) :
    fmtHexLoop fuel u buf =
      (if u = 0 then ['0'] else (Nat.digits 16 u).reverse.map hexDigit) ++ buf := by
  induction fuel generalizing u buf with
  | zero => omega
  | succ fuel ih =>
    unfold fmtHexLoop
    by_cases hu : u < 16
    · rw [if_pos hu]
      by_cases h0 : u = 0
      · subst h0; simp [hexDigit, udigits]
      · rw [if_neg h0, Nat.digits_of_lt 16 u h0 hu]; simp
    · rw [if_neg hu]
      have hpos : 0 < u := by omega
      have hdiv : u / 16 < fuel := by omega
      have hdiv0 : u / 16 ≠ 0 := by omega
      rw [ih (u / 16) _ hdiv, if_neg hdiv0, if_neg (by omega),
        Nat.digits_def' (by norm_num) hpos]
      simp

theorem fmtHex_eq (u : Nat) :
    fmtHex u = if u = 0 then ['0'] else (Nat.digits 16 u).reverse.map hexDigit := by
  unfold fmtHex
  rw [fmtHexLoop_eq (u + 1) u [] (by omega)]
  simp

theorem fmtHex_length_le (u k : Nat) (hk : 0 < k) (h : u < 16 ^ k) : (fmtHex u).length ≤ k := by
  rw [fmtHex_eq]
  by_cases h0 : u = 0
  · simp [h0]; omega
  · rw [if_neg h0]
    simp only [List.length_map, List.length_reverse]
    have h1 := Nat.base_pow_length_digits_le 16 u (by norm_num) h0
    have h2 : 16 ^ (Nat.digits 16 u).length < 16 ^ (k + 1) := by
      calc 16 ^ (Nat.digits 16 u).length ≤ 16 * u := h1
        _ < 16 * 16 ^ k := by omega
        _ = 16 ^ (k + 1) := by ring
    have h3 := (Nat.pow_lt_pow_iff_right (by norm_num : 1 < 16)).mp h2
    omega

theorem fmtHex_length_gt (u k : Nat) (h : 16 ^ k ≤ u) : k < (fmtHex u).length := by
  rw [fmtHex_eq]
  have h0 : u ≠ 0 := by
    have : 0 < 16 ^ k := by positivity
    omega
  rw [if_neg h0]
  simp only [List.length_map, List.length_reverse]
  have h1 : u < 16 ^ (Nat.digits 16 u).length := Nat.lt_base_pow_length_digits (by norm_num)
  have h2 : 16 ^ k < 16 ^ (Nat.digits 16 u).length := lt_of_le_of_lt h h1
  exact (Nat.pow_lt_pow_iff_right (by norm_num : 1 < 16)).mp h2

theorem fmtHex_mem (u : Nat) : ∀ c ∈ fmtHex u, c ∈ udigits := by
  intro c hc
  rw [fmtHex_eq] at hc
  by_cases h0 : u = 0
  · simp [h0] at hc; subst hc; decide
  · rw [if_neg h0] at hc
    simp only [List.mem_map, List.mem_reverse] at hc
    obtain ⟨d, hd, rfl⟩ := hc
    exact hexDigit_mem d (Nat.digits_lt_base (by norm_num) hd)

theorem parseHex_append_singleton (l : List Char) (c : Char) :
    parseHex (l ++ [c]) =
      (parseHex l).bind (fun v => (hexDigitValue c).map (fun d => 16 * v + d)) := by
  simp [parseHex, List.foldl_append]

theorem parseHex_digits (ds : List Nat) (h : ∀ d ∈ ds, d < 16) :
    parseHex (ds.reverse.map hexDigit) = some (Nat.ofDigits 16 ds) := by
  induction ds with
  | nil => simp [parseHex]
  | cons d ds ih =>
    have hd : d < 16 := h d (by simp)
    have hds : ∀ x ∈ ds, x < 16 := fun x hx => h x (by simp [hx])
    rw [List.reverse_cons, List.map_append, List.map_singleton, parseHex_append_singleton,
      ih hds, Option.some_bind, hexDigitValue_hexDigit d hd, Nat.ofDigits_cons]
    simp [Nat.add_comm]

theorem parseHex_fmtHex (u : Nat) : parseHex (fmtHex u) = some u := by
  rw [fmtHex_eq]
  by_cases h0 : u = 0
  · subst h0; decide
  · rw [if_neg h0, parseHex_digits _ (fun d hd => Nat.digits_lt_base (by norm_num) hd),
      Nat.ofDigits_digits]

theorem parseHex_zeros (k : Nat) (l : List Char) :
    parseHex (List.replicate k '0' ++ l) = parseHex l := by
  induction k with
  | zero => simp
  | succ k ih =>
    rw [List.replicate_succ, List.cons_append]
    have : parseHex ('0' :: (List.replicate k '0' ++ l)) =
        parseHex (List.replicate k '0' ++ l) := by
      simp [parseHex, List.foldl_cons, hexDigitValue, udigits]
    rw [this, ih]

/-- A number that is not negative and fits the width is written as its digits with zeros
in front, nothing else. -/
theorem fmtInteger_of_fits (wid : Nat) (a : Int) (h0 : 0 ≤ a) (hwid : 0 < wid)
    (hfit : a.toNat < 16 ^ wid) :
    fmtInteger wid a =
      List.replicate (wid - (fmtHex a.toNat).length) '0' ++ fmtHex a.toNat := by
  have hneg : ¬ a < 0 := by omega
  have habs : a.natAbs = a.toNat := by omega
  have hlen := fmtHex_length_le a.toNat wid hwid hfit
  simp [fmtInteger, hneg, habs, zeroExtend, padLeft]
  omega

theorem fmtInteger_length (wid : Nat) (a : Int) (h0 : 0 ≤ a) (hwid : 0 < wid)
    (hfit : a.toNat < 16 ^ wid) : (fmtInteger wid a).length = wid := by
  have hlen := fmtHex_length_le a.toNat wid hwid hfit
  rw [fmtInteger_of_fits wid a h0 hwid hfit]
  simp
  omega

theorem fmtInteger_mem (wid : Nat) (a : Int) (h0 : 0 ≤ a) (hwid : 0 < wid)
    (hfit : a.toNat < 16 ^ wid) : ∀ c ∈ fmtInteger wid a, c ∈ udigits := by
  intro c hc
  rw [fmtInteger_of_fits wid a h0 hwid hfit] at hc
  rcases List.mem_append.mp hc with h | h
  · rw [(List.mem_replicate.mp h).2]; decide
  · exact fmtHex_mem _ c h

theorem parseHex_fmtInteger (wid : Nat) (a : Int) (h0 : 0 ≤ a) (hwid : 0 < wid)
    (hfit : a.toNat < 16 ^ wid) : parseHex (fmtInteger wid a) = some a.toNat := by
  rw [fmtInteger_of_fits wid a h0 hwid hfit, parseHex_zeros, parseHex_fmtHex]

/-- The two fields of the serial string on the supported range. -/
theorem serialHex_fields (p n : Int) (hp0 : 0 ≤ p) (hp : p ≤ 255) (hn0 : 0 ≤ n)
    (hn : n < 2 ^ 56) :
    (serialHex p n).data.take 2 = fmtInteger 2 p ∧
      (serialHex p n).data.drop 2 = fmtInteger 14 n ∧
      (fmtInteger 2 p).length = 2 ∧ (fmtInteger 14 n).length = 14 := by
  have hpfit : p.toNat < 16 ^ 2 := by norm_num; omega
  have hnfit : n.toNat < 16 ^ 14 := by norm_num; omega
  have hlp := fmtInteger_length 2 p hp0 (by norm_num) hpfit
  have hln := fmtInteger_length 14 n hn0 (by norm_num) hnfit
  refine ⟨?_, ?_, hlp, hln⟩
  · simp [serialHex, List.take_append_eq_append_take, hlp]
  · simp [serialHex, List.drop_append_eq_append_drop, hlp]

/-! ## The claims -/

/-- On the trace of the run. If any policy check of the call returned an error,
`IssueCertificate` returns an error and the trace of the call holds no `DB.Begin`,
`DB.IncrementAndGetSerial`, `Signer.Sign` or `SA.AddCertificate`. And wherever the trace holds a
`Signer.Sign`, the part of the trace before it holds a policy check that returned `nil` for the
common name of the signing request and one for each of its hosts. -/
theorem trace_policy_short_circuit {σ : Type} (pem : PemCodec) (ca : CertificateAuthorityImpl σ)
    (csr : CertificateRequest) (w : σ) :
    ((∃ id e, Event.WillingToIssue id (some e) ∈ (IssueCertificate pem ca csr w).trace) →
      (IssueCertificate pem ca csr w).err ≠ none ∧
      ∀ ev ∈ (IssueCertificate pem ca csr w).trace,
        ev.isBegin = false ∧ ev.isIncrementAndGetSerial = false ∧ ev.isSign = false ∧
          ev.isAddCertificate = false) ∧
    (∀ pre req resp se post,
      (IssueCertificate pem ca csr w).trace = pre ++ Event.Sign req resp se :: post →
      Event.WillingToIssue (dnsIdentifier req.Subject.CN) none ∈ pre ∧
      ∀ host ∈ req.Hosts, Event.WillingToIssue (dnsIdentifier host) none ∈ pre) := by
  obtain ⟨c, e, t, -, he, ht, hp⟩ := run_shape pem ca csr w
  rw [he, ht]
  constructor
  · rintro ⟨id, ce, hmem⟩
    cases hp <;> simp [mem_approvals] at hmem
    simp [mem_approvals, Event.isBegin, Event.isIncrementAndGetSerial, Event.isSign,
      Event.isAddCertificate]
    intro ev hev
    rcases hev with ⟨n, -, rfl⟩ | rfl | rfl <;> simp
  · intro pre req resp se post hsplit
    cases hp
    case missingHostname =>
      have := congrArg (fun l => Event.Sign req resp se ∈ l) hsplit
      simp at this
    case policyRejection cn pre' name post' ce h1 h2 =>
      have := congrArg (fun l => Event.Sign req resp se ∈ l) hsplit
      simp [mem_approvals] at this
    case serialFailure cn b v ce h1 =>
      have := congrArg (fun l => Event.Sign req resp se ∈ l) hsplit
      simp [mem_approvals] at this
    all_goals
      obtain ⟨mid, hpre, htail⟩ := approvals_split_sign _ _ _ _ _ _ _ hsplit
      obtain ⟨hmid, hreq⟩ := split_at_third _ _ _ _ _ _ _ (by simp) (by simp) (by simp) htail
      subst hpre hmid
      simp only [Event.Sign.injEq] at hreq
      obtain ⟨hreq, -, -⟩ := hreq
      subst hreq
      simp only [mem_approvals, signRequest, List.mem_append, List.mem_cons]
      exact ⟨Or.inl ⟨_, Or.inl rfl, rfl⟩, fun host hh => Or.inl ⟨host, Or.inr hh, rfl⟩⟩

/-- Claim C2. The request for `example.com` with a policy that approves and a database whose
`IncrementAndGetSerial` fails: `IssueCertificate` returns the database's error after `Begin` was
called, and the trace of the call ends with the failed allocation; `Rollback` is not called. -/
theorem C2_serial_failure_without_rollback :
    (IssueCertificate tagPem (testCA [] true [1, 7, 7] none none) exampleCSR 0).err =
        some (GoError.fromCollaborator ⟨"database is locked"⟩) ∧
      (IssueCertificate tagPem (testCA [] true [1, 7, 7] none none) exampleCSR 0).trace =
        [Event.WillingToIssue (dnsIdentifier "example.com") none,
          Event.WillingToIssue (dnsIdentifier "example.com") none,
          Event.Begin none,
          Event.IncrementAndGetSerial 0 (some ⟨"database is locked"⟩)] ∧
      (IssueCertificate tagPem (testCA [] true [1, 7, 7] none none) exampleCSR 0).trace.countP
        Event.isBegin = 1 ∧
      (IssueCertificate tagPem (testCA [] true [1, 7, 7] none none) exampleCSR 0).trace.countP
        Event.isRollback = 0 := by
  decide

/-- Claim C3. A request with no DNS name and an empty common name is answered with the
missing-hostname error and the empty certificate, and the trace of the call holds no
collaborator call at all. A request with a common name or a DNS name is never answered with that
error, and the first thing the call does is a policy check. -/
theorem C3_missing_hostname {σ : Type} (pem : PemCodec) (ca : CertificateAuthorityImpl σ)
    (csr : CertificateRequest) (w : σ) :
    (csr.DNSNames = [] → csr.Subject.CommonName = "" →
      (IssueCertificate pem ca csr w).err =
          some (GoError.errorsNew "Cannot issue a certificate without a hostname.") ∧
        (IssueCertificate pem ca csr w).cert = Certificate.empty ∧
        ∀ ev ∈ (IssueCertificate pem ca csr w).trace,
          ev.isWillingToIssue = false ∧ ev.isBegin = false ∧
            ev.isIncrementAndGetSerial = false ∧ ev.isSign = false ∧
            ev.isAddCertificate = false ∧ ev.isCommit = false ∧ ev.isRollback = false) ∧
    ((csr.Subject.CommonName ≠ "" ∨ csr.DNSNames ≠ []) →
      (IssueCertificate pem ca csr w).err ≠
          some (GoError.errorsNew "Cannot issue a certificate without a hostname.") ∧
        ∃ id r rest, (IssueCertificate pem ca csr w).trace = Event.WillingToIssue id r :: rest) := by
  obtain ⟨c, e, t, hc, he, ht, hp⟩ := run_shape pem ca csr w
  rw [hc, he, ht]
  constructor
  · intro hd hn
    have hnone : effectiveCommonName csr = none := by
      simp [effectiveCommonName, hd, hn]
    cases hp <;> simp_all [Event.isWillingToIssue, Event.isBegin, Event.isIncrementAndGetSerial,
      Event.isSign, Event.isAddCertificate, Event.isCommit, Event.isRollback]
  · intro hnamed
    have hsome := effectiveCommonName_of_named csr hnamed
    cases hp
    case missingHostname h1 h2 => rcases hnamed with h | h <;> simp_all
    case policyRejection cn pre name post ce h1 h2 =>
      refine ⟨by simpa using policy_text_ne name, ?_⟩
      cases pre <;> simp [approvals]
    all_goals simp [approvals]

/-- Claim C3 at a concrete input. A request with no name at all, and the request for
`example.com`. -/
theorem C3_missing_hostname_witness :
    (IssueCertificate tagPem (testCA [] false [1, 7] none none) ⟨[48, 0], ⟨""⟩, []⟩ 0).err =
        some (GoError.errorsNew "Cannot issue a certificate without a hostname.") ∧
      (IssueCertificate tagPem (testCA [] false [1, 7] none none) exampleCSR 0).err ≠
        some (GoError.errorsNew "Cannot issue a certificate without a hostname.") :=
  ⟨((C3_missing_hostname tagPem (testCA [] false [1, 7] none none) ⟨[48, 0], ⟨""⟩, []⟩ 0).1
      rfl rfl).1,
    ((C3_missing_hostname tagPem (testCA [] false [1, 7] none none) exampleCSR 0).2
      (Or.inr (by decide))).1⟩

/-- On the trace of the run. For a request with at least one name: if no policy check of the
call returned an error, no `IncrementAndGetSerial` of the call returned an error, every `Sign`
of the call returned without error a non-empty response that decodes to a block of type
`CERTIFICATE`, and no `AddCertificate` of the call returned an error, then `IssueCertificate`
returns no error; the signer was called, and the certificate carries the bytes of the block
decoded from its response with status valid; `AddCertificate` was called with exactly those
bytes; `Commit` was called once and `Rollback` never. -/
theorem trace_successful_issuance {σ : Type} (pem : PemCodec) (ca : CertificateAuthorityImpl σ)
    (csr : CertificateRequest) (w : σ)
    (hnamed : csr.Subject.CommonName ≠ "" ∨ csr.DNSNames ≠ [])
    (hpolicy : ∀ id e, Event.WillingToIssue id (some e) ∉ (IssueCertificate pem ca csr w).trace)
    (hserial : ∀ v e,
      Event.IncrementAndGetSerial v (some e) ∉ (IssueCertificate pem ca csr w).trace)
    (hsign : ∀ req resp se, Event.Sign req resp se ∈ (IssueCertificate pem ca csr w).trace →
      se = none ∧ resp ≠ [] ∧
        ∃ block, (pem.Decode resp).1 = some block ∧ block.type = "CERTIFICATE")
    (hadd : ∀ der id e,
      Event.AddCertificate der id (some e) ∉ (IssueCertificate pem ca csr w).trace) :
    (IssueCertificate pem ca csr w).err = none ∧
    (∃ req resp block id,
      Event.Sign req resp none ∈ (IssueCertificate pem ca csr w).trace ∧
      (pem.Decode resp).1 = some block ∧ block.type = "CERTIFICATE" ∧
      (IssueCertificate pem ca csr w).cert = ⟨block.bytes, AcmeStatus.StatusValid⟩ ∧
      Event.AddCertificate block.bytes id none ∈ (IssueCertificate pem ca csr w).trace ∧
      ∀ der id' e, Event.AddCertificate der id' e ∈ (IssueCertificate pem ca csr w).trace →
        der = block.bytes) ∧
    (IssueCertificate pem ca csr w).trace.countP Event.isCommit = 1 ∧
    (IssueCertificate pem ca csr w).trace.countP Event.isRollback = 0 := by
  obtain ⟨c, e, t, hc, he, ht, hp⟩ := run_shape pem ca csr w
  rw [ht] at hpolicy hserial hsign hadd
  rw [hc, he, ht]
  cases hp
  case missingHostname h1 h2 => rcases hnamed with h | h <;> simp_all
  case policyRejection cn pre name post ce h1 h2 =>
    exact absurd (by simp) (hpolicy (dnsIdentifier name) ce)
  case serialFailure cn b v ce h1 => exact absurd (by simp) (hserial v ce)
  case signFailure cn b v resp ce r h1 =>
    have := (hsign (signRequest pem ca csr cn v) resp (some ce) (by simp)).1
    simp at this
  case emptyResponse cn b v r h1 =>
    have := (hsign (signRequest pem ca csr cn v) [] none (by simp)).2.1
    simp at this
  case invalidCertificate cn b v resp r h1 h2 h3 =>
    obtain ⟨-, -, block, hb1, hb2⟩ := hsign (signRequest pem ca csr cn v) resp none (by simp)
    exact absurd hb2 (h3 block hb1)
  case storageFailure cn b v resp block id ce r h1 h2 h3 h4 =>
    exact absurd (by simp) (hadd block.bytes id ce)
  case issued cn b v resp block id cm h1 h2 h3 h4 =>
    refine ⟨rfl, ⟨signRequest pem ca csr cn v, resp, block, id, by simp, h3, h4, rfl, by simp, ?_⟩,
      ?_, ?_⟩
    · intro der id' ae hmem
      simp only [List.mem_append, mem_approvals, List.mem_cons, List.mem_singleton,
        List.not_mem_nil, or_false] at hmem
      rcases hmem with ⟨n, -, hn⟩ | hn | hn | hn | hn | hn <;> simp at hn
      exact hn.1
    · simp [List.countP_append, List.countP_cons, countP_approvals, Event.isCommit]
    · simp [List.countP_append, List.countP_cons, countP_approvals, Event.isRollback]

/-- Claim C5. For a prefix from 0 to 255 and a counter from 0 to 2^56 - 1 the serial string has
16 characters, each one of `0123456789ABCDEF`; its first two characters read as a base-16 number
give the prefix and its last fourteen give the counter. For prefix 1 and counter 1 it is
`0100000000000001`. -/
theorem C5_serial_format (p n : Int) (hp0 : 0 ≤ p) (hp : p ≤ 255) (hn0 : 0 ≤ n)
    (hn : n < 2 ^ 56) :
    (serialHex p n).length = 16 ∧
    (∀ c ∈ (serialHex p n).data, c ∈ udigits) ∧
    ((serialHex p n).data.take 2).length = 2 ∧
    parseHex ((serialHex p n).data.take 2) = some p.toNat ∧
    ((serialHex p n).data.drop 2).length = 14 ∧
    parseHex ((serialHex p n).data.drop 2) = some n.toNat ∧
    serialHex 1 1 = "0100000000000001" := by
  have hpfit : p.toNat < 16 ^ 2 := by norm_num; omega
  have hnfit : n.toNat < 16 ^ 14 := by norm_num; omega
  obtain ⟨ht, hd, hlp, hln⟩ := serialHex_fields p n hp0 hp hn0 hn
  refine ⟨?_, ?_, ?_, ?_, ?_, ?_, by decide⟩
  · simp [serialHex, String.length, hlp, hln]
  · intro c hc
    simp only [serialHex, List.mem_append] at hc
    rcases hc with h | h
    · exact fmtInteger_mem 2 p hp0 (by norm_num) hpfit c h
    · exact fmtInteger_mem 14 n hn0 (by norm_num) hnfit c h
  · rw [ht, hlp]
  · rw [ht, parseHex_fmtInteger 2 p hp0 (by norm_num) hpfit]
  · rw [hd, hln]
  · rw [hd, parseHex_fmtInteger 14 n hn0 (by norm_num) hnfit]

/-- Claim C5 at a concrete input. Prefix 255 and counter 2^56 - 1, the largest supported values.
-/
theorem C5_serial_format_witness :
    serialHex 255 (2 ^ 56 - 1) = "FFFFFFFFFFFFFFFF" ∧ (serialHex 255 (2 ^ 56 - 1)).length = 16 :=
  ⟨by decide, (C5_serial_format 255 (2 ^ 56 - 1) (by decide) (by decide) (by decide)
    (by decide)).1⟩

/-- Claim C6. On the supported range the serial string determines the prefix and the counter:
equal strings come from equal prefixes and equal counters. -/
theorem C6_serial_injective (p₁ p₂ n₁ n₂ : Int) (hp₁ : 0 ≤ p₁ ∧ p₁ ≤ 255)
    (hp₂ : 0 ≤ p₂ ∧ p₂ ≤ 255) (hn₁ : 0 ≤ n₁ ∧ n₁ < 2 ^ 56) (hn₂ : 0 ≤ n₂ ∧ n₂ < 2 ^ 56)
    (h : serialHex p₁ n₁ = serialHex p₂ n₂) : p₁ = p₂ ∧ n₁ = n₂ := by
  obtain ⟨ht₁, hd₁, -, -⟩ := serialHex_fields p₁ n₁ hp₁.1 hp₁.2 hn₁.1 hn₁.2
  obtain ⟨ht₂, hd₂, -, -⟩ := serialHex_fields p₂ n₂ hp₂.1 hp₂.2 hn₂.1 hn₂.2
  have hpp : parseHex (fmtInteger 2 p₁) = parseHex (fmtInteger 2 p₂) := by
    rw [← ht₁, ← ht₂, h]
  have hnn : parseHex (fmtInteger 14 n₁) = parseHex (fmtInteger 14 n₂) := by
    rw [← hd₁, ← hd₂, h]
  rw [parseHex_fmtInteger 2 p₁ hp₁.1 (by norm_num) (by norm_num; omega),
    parseHex_fmtInteger 2 p₂ hp₂.1 (by norm_num) (by norm_num; omega)] at hpp
  rw [parseHex_fmtInteger 14 n₁ hn₁.1 (by norm_num) (by norm_num; omega),
    parseHex_fmtInteger 14 n₂ hn₂.1 (by norm_num) (by norm_num; omega)] at hnn
  have h1 := Option.some.inj hpp
  have h2 := Option.some.inj hnn
  constructor <;> omega

/-- Claim C6 at a concrete input. Two shards at the same counter value, and one shard at two
counter values, write different serial strings. -/
theorem C6_serial_injective_witness :
    serialHex 1 5 = serialHex 1 5 ∧ ((1 : Int) = 1 ∧ (5 : Int) = 5) ∧
      serialHex 1 5 ≠ serialHex 2 5 ∧ serialHex 1 5 ≠ serialHex 1 6 :=
  ⟨rfl, C6_serial_injective 1 1 5 5 (by decide) (by decide) (by decide) (by decide) rfl,
    by decide, by decide⟩

/-- On the trace of the run. If some policy check of the call returned an error, then the names
to check (the effective common name, then the host names in order) split into the names checked
and approved, the refused name, and the names never submitted: the trace is the approvals of the
first part, the refusal, and the audit-log call, and the error is `Policy forbids issuing for
name ` followed by the refused name. The serial allocator is not called. -/
theorem trace_first_rejected_name {σ : Type} (pem : PemCodec) (ca : CertificateAuthorityImpl σ)
    (csr : CertificateRequest) (w : σ)
    (h : ∃ ev ∈ (IssueCertificate pem ca csr w).trace, ev.isRejection = true) :
    (∃ cn pre name post e,
      effectiveCommonName csr = some cn ∧
      cn :: effectiveHostNames csr cn = pre ++ name :: post ∧
      (IssueCertificate pem ca csr w).err =
        some (GoError.errorsNew ("Policy forbids issuing for name " ++ name)) ∧
      (IssueCertificate pem ca csr w).trace =
        approvals pre ++ [Event.WillingToIssue (dnsIdentifier name) (some e),
          Event.AuditErr (GoError.errorsNew ("Policy forbids issuing for name " ++ name))]) ∧
    ∀ ev ∈ (IssueCertificate pem ca csr w).trace,
      ev.isBegin = false ∧ ev.isIncrementAndGetSerial = false ∧ ev.isCommit = false ∧
        ev.isRollback = false := by
  obtain ⟨c, e, t, -, he, ht, hp⟩ := run_shape pem ca csr w
  rw [he, ht]
  rw [ht] at h
  obtain ⟨ev, hmem, hrej⟩ := h
  cases hp
  case policyRejection cn pre name post ce h1 h2 =>
    refine ⟨⟨cn, pre, name, post, ce, h1, h2, rfl, rfl⟩, ?_⟩
    intro ev' hev
    simp only [List.mem_append, mem_approvals, List.mem_cons, List.mem_singleton,
      List.not_mem_nil, or_false] at hev
    rcases hev with ⟨n, -, rfl⟩ | rfl | rfl <;>
      simp [Event.isBegin, Event.isIncrementAndGetSerial, Event.isCommit, Event.isRollback]
  case missingHostname =>
    simp only [List.mem_singleton] at hmem
    subst hmem
    simp [Event.isRejection] at hrej
  all_goals
    simp only [List.mem_append, mem_approvals, List.mem_cons, List.mem_singleton,
      List.not_mem_nil, or_false] at hmem
    rcases hmem with ⟨n, -, rfl⟩ | hmem
    · simp [Event.isRejection] at hrej
    · rcases hmem with rfl | rfl | rfl | rfl | rfl <;> simp [Event.isRejection] at hrej

/-- On the trace of the run. If a `Sign` of the call returned an error, `IssueCertificate`
returns that error with the empty certificate, `Rollback` is called once, and neither
`AddCertificate` nor `Commit` is called. -/
theorem trace_signer_failure {σ : Type} (pem : PemCodec) (ca : CertificateAuthorityImpl σ)
    (csr : CertificateRequest) (w : σ) (req : SignRequest) (resp : Bytes) (e : CollabError)
    (h : Event.Sign req resp (some e) ∈ (IssueCertificate pem ca csr w).trace) :
    (IssueCertificate pem ca csr w).err = some (GoError.fromCollaborator e) ∧
    (IssueCertificate pem ca csr w).cert = Certificate.empty ∧
    (IssueCertificate pem ca csr w).trace.countP Event.isRollback = 1 ∧
    (IssueCertificate pem ca csr w).trace.countP Event.isAddCertificate = 0 ∧
    (IssueCertificate pem ca csr w).trace.countP Event.isCommit = 0 := by
  obtain ⟨c, e', t, hc, he, ht, hp⟩ := run_shape pem ca csr w
  rw [ht] at h
  rw [hc, he, ht]
  cases hp <;> simp [mem_approvals] at h
  obtain ⟨-, -, rfl⟩ := h
  simp [List.countP_append, List.countP_cons, countP_approvals, Event.isRollback,
    Event.isAddCertificate, Event.isCommit]

/-- On the trace of the run. If a `Sign` of the call returned without error, then: an empty
response makes `IssueCertificate` return the error `No certificate returned by server`; a
non-empty response that holds no PEM block, or whose block is not of type `CERTIFICATE`, makes
it return the error `Invalid certificate value returned`; in both cases the certificate is
empty, `Rollback` is called once, and neither `AddCertificate` nor `Commit` is called. -/
theorem trace_bad_signer_response {σ : Type} (pem : PemCodec) (ca : CertificateAuthorityImpl σ)
    (csr : CertificateRequest) (w : σ) (req : SignRequest) (resp : Bytes)
    (h : Event.Sign req resp none ∈ (IssueCertificate pem ca csr w).trace)
    (hbad : resp.length = 0 ∨
      ∀ block, (pem.Decode resp).1 = some block → block.type ≠ "CERTIFICATE") :
    (IssueCertificate pem ca csr w).err ≠ none ∧
    (resp.length = 0 → (IssueCertificate pem ca csr w).err =
      some (GoError.errorsNew "No certificate returned by server")) ∧
    (resp.length ≠ 0 → (IssueCertificate pem ca csr w).err =
      some (GoError.errorsNew "Invalid certificate value returned")) ∧
    (IssueCertificate pem ca csr w).cert = Certificate.empty ∧
    (IssueCertificate pem ca csr w).trace.countP Event.isRollback = 1 ∧
    (IssueCertificate pem ca csr w).trace.countP Event.isAddCertificate = 0 ∧
    (IssueCertificate pem ca csr w).trace.countP Event.isCommit = 0 := by
  obtain ⟨c, e', t, hc, he, ht, hp⟩ := run_shape pem ca csr w
  rw [ht] at h
  rw [hc, he, ht]
  cases hp <;> simp [mem_approvals] at h
  case emptyResponse cn b v r h1 =>
    simp [h.2, List.countP_append, List.countP_cons, countP_approvals, Event.isRollback,
      Event.isAddCertificate, Event.isCommit]
  case invalidCertificate cn b v resp' r h1 h2 h3 =>
    obtain ⟨-, rfl⟩ := h
    simp [h2, List.countP_append, List.countP_cons, countP_approvals, Event.isRollback,
      Event.isAddCertificate, Event.isCommit]
  case storageFailure cn b v resp' block id ce r h1 h2 h3 h4 =>
    obtain ⟨-, rfl⟩ := h
    rcases hbad with hb | hb
    · exact absurd (List.length_eq_zero.mp hb) h2
    · exact absurd h4 (hb block h3)
  case issued cn b v resp' block id cm h1 h2 h3 h4 =>
    obtain ⟨-, rfl⟩ := h
    rcases hbad with hb | hb
    · exact absurd (List.length_eq_zero.mp hb) h2
    · exact absurd h4 (hb block h3)

/-- On the trace of the run. If an `AddCertificate` of the call returned an error,
`IssueCertificate` returns that error, `Rollback` is called once and `Commit` is never called;
the bytes handed to `AddCertificate` are those of a `CERTIFICATE` block decoded from a response
the signer returned without error. -/
theorem trace_storage_failure {σ : Type} (pem : PemCodec) (ca : CertificateAuthorityImpl σ)
    (csr : CertificateRequest) (w : σ) (der : Bytes) (id : String) (e : CollabError)
    (h : Event.AddCertificate der id (some e) ∈ (IssueCertificate pem ca csr w).trace) :
    (IssueCertificate pem ca csr w).err = some (GoError.fromCollaborator e) ∧
    (IssueCertificate pem ca csr w).trace.countP Event.isRollback = 1 ∧
    (IssueCertificate pem ca csr w).trace.countP Event.isCommit = 0 ∧
    ∃ req resp block, Event.Sign req resp none ∈ (IssueCertificate pem ca csr w).trace ∧
      (pem.Decode resp).1 = some block ∧ block.type = "CERTIFICATE" ∧ der = block.bytes := by
  obtain ⟨c, e', t, -, he, ht, hp⟩ := run_shape pem ca csr w
  rw [ht] at h
  rw [he, ht]
  cases hp <;> simp [mem_approvals] at h
  case storageFailure cn b v resp block id' ce r h1 h2 h3 h4 =>
    obtain ⟨rfl, -, rfl⟩ := h
    refine ⟨rfl, ?_, ?_, signRequest pem ca csr cn v, resp, block, by simp, h3, h4, rfl⟩
    · simp [List.countP_append, List.countP_cons, countP_approvals, Event.isRollback]
    · simp [List.countP_append, List.countP_cons, countP_approvals, Event.isCommit]

/-! ## Further facts about traces -/

/-- The only call that returns an error together with a certificate that is not empty is
the one in which `AddCertificate` failed. -/
theorem error_with_certificate {σ : Type} (pem : PemCodec) (ca : CertificateAuthorityImpl σ)
    (csr : CertificateRequest) (w : σ) (herr : (IssueCertificate pem ca csr w).err ≠ none) :
    (IssueCertificate pem ca csr w).cert = Certificate.empty ∨
      ∃ der id e, Event.AddCertificate der id (some e) ∈ (IssueCertificate pem ca csr w).trace ∧
        (IssueCertificate pem ca csr w).cert = ⟨der, AcmeStatus.StatusValid⟩ := by
  obtain ⟨c, e', t, hc, he, ht, hp⟩ := run_shape pem ca csr w
  rw [he] at herr
  rw [hc, ht]
  cases hp
  case storageFailure cn b v resp block id ce r h1 h2 h3 h4 =>
    exact Or.inr ⟨block.bytes, id, ce, by simp, rfl⟩
  case issued => exact absurd rfl herr
  all_goals exact Or.inl rfl

/-- Claim C11. The request for `example.com` with a policy that approves, a signer that
answers with a `CERTIFICATE` block holding the bytes 7, 7, and a storage authority whose
`AddCertificate` fails: `IssueCertificate` returns the storage error together with a
certificate that carries the bytes 7, 7 and the status valid, not the empty certificate. -/
theorem C11_certificate_returned_with_storage_error :
    (IssueCertificate tagPem (testCA [] false [1, 7, 7] none (some ⟨"disk full"⟩))
        exampleCSR 0).err = some (GoError.fromCollaborator ⟨"disk full"⟩) ∧
      (IssueCertificate tagPem (testCA [] false [1, 7, 7] none (some ⟨"disk full"⟩))
        exampleCSR 0).cert = ⟨[7, 7], AcmeStatus.StatusValid⟩ ∧
      (IssueCertificate tagPem (testCA [] false [1, 7, 7] none (some ⟨"disk full"⟩))
        exampleCSR 0).cert ≠ Certificate.empty := by
  decide

/-- Claim C12, refuted as stated. The request for `example.com` with a database whose
`Begin` returns an error: `IncrementAndGetSerial` and `Sign` are called all the same, and
`IssueCertificate` returns a certificate and no error. -/
theorem C12_begin_error_swallowed :
    Event.Begin (some ⟨"transaction already active"⟩) ∈
        (IssueCertificate tagPem (stubCA (some ⟨"transaction already active"⟩) none)
          exampleCSR 0).trace ∧
      (IssueCertificate tagPem (stubCA (some ⟨"transaction already active"⟩) none)
        exampleCSR 0).err = none ∧
      (IssueCertificate tagPem (stubCA (some ⟨"transaction already active"⟩) none)
        exampleCSR 0).trace.countP Event.isIncrementAndGetSerial = 1 ∧
      (IssueCertificate tagPem (stubCA (some ⟨"transaction already active"⟩) none)
        exampleCSR 0).trace.countP Event.isSign = 1 := by
  decide

/-- Claim C12, amended. If `Begin` returned an error, `IssueCertificate` discards it: the
next entry of the trace is the call of `IncrementAndGetSerial`, and the error that
`IssueCertificate` returns is `nil` or comes from a later step, namely a failed
`IncrementAndGetSerial`, a failed `Sign`, an empty or invalid response, or a failed
`AddCertificate`. -/
theorem C12_begin_result_discarded {σ : Type} (pem : PemCodec)
    (ca : CertificateAuthorityImpl σ) (csr : CertificateRequest) (w : σ) (e : CollabError)
    (h : Event.Begin (some e) ∈ (IssueCertificate pem ca csr w).trace) :
    (∃ front v r rest, (IssueCertificate pem ca csr w).trace =
      front ++ Event.Begin (some e) :: Event.IncrementAndGetSerial v r :: rest) ∧
    ((IssueCertificate pem ca csr w).err = none ∨
      (∃ v e', Event.IncrementAndGetSerial v (some e') ∈ (IssueCertificate pem ca csr w).trace ∧
        (IssueCertificate pem ca csr w).err = some (GoError.fromCollaborator e')) ∨
      (∃ req resp e', Event.Sign req resp (some e') ∈ (IssueCertificate pem ca csr w).trace ∧
        (IssueCertificate pem ca csr w).err = some (GoError.fromCollaborator e')) ∨
      (IssueCertificate pem ca csr w).err =
        some (GoError.errorsNew "No certificate returned by server") ∨
      (IssueCertificate pem ca csr w).err =
        some (GoError.errorsNew "Invalid certificate value returned") ∨
      (∃ der id e', Event.AddCertificate der id (some e') ∈
          (IssueCertificate pem ca csr w).trace ∧
        (IssueCertificate pem ca csr w).err = some (GoError.fromCollaborator e'))) := by
  obtain ⟨c, e', t, -, he, ht, hp⟩ := run_shape pem ca csr w
  rw [ht] at h
  rw [he, ht]
  cases hp <;> simp [mem_approvals] at h <;> subst h
  case serialFailure cn v ce h1 =>
    exact ⟨⟨approvals (cn :: effectiveHostNames csr cn), v, some ce, [], rfl⟩,
      Or.inr (Or.inl ⟨v, ce, by simp, rfl⟩)⟩
  case signFailure cn v resp ce r h1 =>
    exact ⟨⟨approvals (cn :: effectiveHostNames csr cn), v, none, _, rfl⟩,
      Or.inr (Or.inr (Or.inl ⟨signRequest pem ca csr cn v, resp, ce, by simp, rfl⟩))⟩
  case emptyResponse cn v r h1 =>
    exact ⟨⟨approvals (cn :: effectiveHostNames csr cn), v, none, _, rfl⟩,
      Or.inr (Or.inr (Or.inr (Or.inl rfl)))⟩
  case invalidCertificate cn v resp r h1 h2 h3 =>
    exact ⟨⟨approvals (cn :: effectiveHostNames csr cn), v, none, _, rfl⟩,
      Or.inr (Or.inr (Or.inr (Or.inr (Or.inl rfl))))⟩
  case storageFailure cn v resp block id ce r h1 h2 h3 h4 =>
    exact ⟨⟨approvals (cn :: effectiveHostNames csr cn), v, none, _, rfl⟩,
      Or.inr (Or.inr (Or.inr (Or.inr (Or.inr ⟨block.bytes, id, ce, by simp, rfl⟩))))⟩
  case issued cn v resp block id cm h1 h2 h3 h4 =>
    exact ⟨⟨approvals (cn :: effectiveHostNames csr cn), v, none, _, rfl⟩, Or.inl rfl⟩

/-- Claim C12, amended, at a concrete input. The request for `example.com` with a database
whose `Begin` returns an error. -/
theorem C12_begin_result_discarded_witness :
    ∃ front v r rest,
      (IssueCertificate tagPem (stubCA (some ⟨"transaction already active"⟩) none)
        exampleCSR 0).trace =
      front ++ Event.Begin (some ⟨"transaction already active"⟩) ::
        Event.IncrementAndGetSerial v r :: rest :=
  (C12_begin_result_discarded tagPem (stubCA (some ⟨"transaction already active"⟩) none)
    exampleCSR 0 ⟨"transaction already active"⟩ (by decide)).1

/-- Claim C13, refuted as stated. The request for `example.com` with a database whose
`Commit` returns an error: `IssueCertificate` returns the certificate and no error. -/
theorem C13_commit_error_swallowed :
    Event.Commit (some ⟨"disk I/O error"⟩) ∈
        (IssueCertificate tagPem (stubCA none (some ⟨"disk I/O error"⟩)) exampleCSR 0).trace ∧
      (IssueCertificate tagPem (stubCA none (some ⟨"disk I/O error"⟩)) exampleCSR 0).err =
        none ∧
      (IssueCertificate tagPem (stubCA none (some ⟨"disk I/O error"⟩)) exampleCSR 0).cert =
        ⟨[7, 7], AcmeStatus.StatusValid⟩ := by
  decide

/-- Claim C13, amended. `IssueCertificate` returns no error only if `Commit` was called, as
the last call of the run; what `Commit` returned is discarded: whenever `Commit` was
called, whether it failed or not, `IssueCertificate` returns no error and a certificate
with status valid. -/
theorem C13_commit_result_discarded {σ : Type} (pem : PemCodec)
    (ca : CertificateAuthorityImpl σ) (csr : CertificateRequest) (w : σ) :
    ((IssueCertificate pem ca csr w).err = none →
      ∃ front c, (IssueCertificate pem ca csr w).trace = front ++ [Event.Commit c]) ∧
    (∀ c, Event.Commit c ∈ (IssueCertificate pem ca csr w).trace →
      (IssueCertificate pem ca csr w).err = none ∧
        (IssueCertificate pem ca csr w).cert.Status = AcmeStatus.StatusValid) := by
  obtain ⟨c, e', t, hc, he, ht, hp⟩ := run_shape pem ca csr w
  rw [hc, he, ht]
  constructor
  · intro hnone
    cases hp <;> simp at hnone
    case issued cn b v resp block id cm h1 h2 h3 h4 =>
      exact ⟨approvals (cn :: effectiveHostNames csr cn) ++
        [Event.Begin b, Event.IncrementAndGetSerial v none,
          Event.Sign (signRequest pem ca csr cn v) resp none,
          Event.AddCertificate block.bytes id none], cm, by simp⟩
  · intro cm hmem
    cases hp <;> simp [mem_approvals] at hmem
    simp

/-- Claim C13, amended, at a concrete input. The request for `example.com` with a database
whose `Commit` returns an error. -/
theorem C13_commit_result_discarded_witness :
    (IssueCertificate tagPem (stubCA none (some ⟨"disk I/O error"⟩)) exampleCSR 0).err = none ∧
      (IssueCertificate tagPem (stubCA none (some ⟨"disk I/O error"⟩))
        exampleCSR 0).cert.Status = AcmeStatus.StatusValid :=
  (C13_commit_result_discarded tagPem (stubCA none (some ⟨"disk I/O error"⟩)) exampleCSR 0).2
    (some ⟨"disk I/O error"⟩) (by decide)

/-- A call that reached the signer: the trace is the approvals of all names, then `Begin`,
the successful `IncrementAndGetSerial`, the `Sign` with the request of lines 128 to 136, and
a remainder without further policy checks, `Begin`, `IncrementAndGetSerial` or `Sign`. -/
theorem sign_reached {σ : Type} (pem : PemCodec) (ca : CertificateAuthorityImpl σ)
    (csr : CertificateRequest) (w : σ) (req : SignRequest) (resp : Bytes)
    (se : Option CollabError)
    (h : Event.Sign req resp se ∈ (IssueCertificate pem ca csr w).trace) :
    ∃ cn b v tail, effectiveCommonName csr = some cn ∧ req = signRequest pem ca csr cn v ∧
      (IssueCertificate pem ca csr w).trace =
        approvals (cn :: effectiveHostNames csr cn) ++
          Event.Begin b :: Event.IncrementAndGetSerial v none :: Event.Sign req resp se :: tail ∧
      ∀ ev ∈ tail, ev.isWillingToIssue = false ∧ ev.isBegin = false ∧
        ev.isIncrementAndGetSerial = false ∧ ev.isSign = false := by
  obtain ⟨c, e', t, -, -, ht, hp⟩ := run_shape pem ca csr w
  rw [ht] at h
  rw [ht]
  cases hp <;> simp [mem_approvals] at h
  case signFailure cn b v resp' ce r h1 =>
    obtain ⟨rfl, rfl, rfl⟩ := h
    exact ⟨cn, b, v, [Event.Rollback r], h1, rfl, rfl, by
      simp [Event.isWillingToIssue, Event.isBegin, Event.isIncrementAndGetSerial, Event.isSign]⟩
  case emptyResponse cn b v r h1 =>
    obtain ⟨rfl, rfl, rfl⟩ := h
    exact ⟨cn, b, v, _, h1, rfl, rfl, by
      simp [Event.isWillingToIssue, Event.isBegin, Event.isIncrementAndGetSerial, Event.isSign]⟩
  case invalidCertificate cn b v resp' r h1 h2 h3 =>
    obtain ⟨rfl, rfl, rfl⟩ := h
    exact ⟨cn, b, v, _, h1, rfl, rfl, by
      simp [Event.isWillingToIssue, Event.isBegin, Event.isIncrementAndGetSerial, Event.isSign]⟩
  case storageFailure cn b v resp' block id ce r h1 h2 h3 h4 =>
    obtain ⟨rfl, rfl, rfl⟩ := h
    exact ⟨cn, b, v, _, h1, rfl, rfl, by
      simp [Event.isWillingToIssue, Event.isBegin, Event.isIncrementAndGetSerial, Event.isSign]⟩
  case issued cn b v resp' block id cm h1 h2 h3 h4 =>
    obtain ⟨rfl, rfl, rfl⟩ := h
    exact ⟨cn, b, v, _, h1, rfl, rfl, by
      simp [Event.isWillingToIssue, Event.isBegin, Event.isIncrementAndGetSerial, Event.isSign]⟩

/-- How the names the call works with come from the CSR. -/
theorem effective_names (csr : CertificateRequest) (cn : String)
    (hcn : effectiveCommonName csr = some cn) :
    (csr.Subject.CommonName ≠ "" → cn = csr.Subject.CommonName) ∧
    (csr.Subject.CommonName = "" → csr.DNSNames.head? = some cn) ∧
    (csr.DNSNames ≠ [] → effectiveHostNames csr cn = csr.DNSNames) ∧
    (csr.DNSNames = [] → effectiveHostNames csr cn = [cn]) := by
  unfold effectiveCommonName at hcn
  refine ⟨?_, ?_, ?_, ?_⟩
  · intro hne
    have hlen : csr.Subject.CommonName.length > 0 := by
      rcases Nat.eq_zero_or_pos csr.Subject.CommonName.length with h0 | h0
      · exact absurd (String.ext (List.length_eq_zero.mp h0)) hne
      · exact h0
    rw [if_pos hlen] at hcn
    exact (Option.some.inj hcn).symm
  · intro he
    have hlen : ¬ csr.Subject.CommonName.length > 0 := by simp [he]
    rw [if_neg hlen] at hcn
    exact hcn
  · intro hne
    simp [effectiveHostNames, hne]
  · intro he
    simp [effectiveHostNames, he]

/-- On the trace of the run. Every signing request that the call hands to `Signer.Sign` has: as
`Subject.CN` the subject common name of the CSR when that is not empty and otherwise the first
DNS name; as `Hosts` the DNS names of the CSR, unchanged, when there are any, and otherwise the
list holding `Subject.CN` alone; as `Profile` the profile of the CA; as `SerialSeq` the serial
string formatted from the prefix of the CA and the one value `IncrementAndGetSerial` returned in
this call; as `Request` the PEM encoding of the raw CSR under the label `CERTIFICATE REQUEST`.
-/
theorem trace_signing_request {σ : Type} (pem : PemCodec) (ca : CertificateAuthorityImpl σ)
    (csr : CertificateRequest) (w : σ) (req : SignRequest) (resp : Bytes)
    (se : Option CollabError)
    (h : Event.Sign req resp se ∈ (IssueCertificate pem ca csr w).trace) :
    (csr.Subject.CommonName ≠ "" → req.Subject.CN = csr.Subject.CommonName) ∧
    (csr.Subject.CommonName = "" → csr.DNSNames.head? = some req.Subject.CN) ∧
    (csr.DNSNames ≠ [] → req.Hosts = csr.DNSNames) ∧
    (csr.DNSNames = [] → req.Hosts = [req.Subject.CN]) ∧
    req.Profile = ca.profile ∧
    (∃ v, Event.IncrementAndGetSerial v none ∈ (IssueCertificate pem ca csr w).trace ∧
      req.SerialSeq = serialHex ca.Prefix v ∧
      ∀ v' r, Event.IncrementAndGetSerial v' r ∈ (IssueCertificate pem ca csr w).trace →
        v' = v) ∧
    req.Request = pem.EncodeToMemory ⟨"CERTIFICATE REQUEST", csr.Raw⟩ := by
  obtain ⟨cn, b, v, tail, hcn, hreq, ht, htail⟩ := sign_reached pem ca csr w req resp se h
  obtain ⟨n1, n2, n3, n4⟩ := effective_names csr cn hcn
  subst hreq
  refine ⟨n1, n2, n3, n4, rfl, ⟨v, by simp [ht], rfl, ?_⟩, rfl⟩
  intro v' r hmem
  rw [ht] at hmem
  simp only [List.mem_append, mem_approvals, List.mem_cons] at hmem
  rcases hmem with ⟨n, -, hn⟩ | hn | hn | hn | hn
  · simp at hn
  · simp at hn
  · simp at hn; exact hn.1
  · simp at hn
  · have := (htail _ hn).2.2.1
    simp [Event.isIncrementAndGetSerial] at this

theorem countP_isWillingToIssue_approvals (names : List String) :
    (approvals names).countP Event.isWillingToIssue = names.length := by
  induction names with
  | nil => rfl
  | cons n ns ih =>
    simp only [approvals, List.map_cons, List.length_cons] at ih ⊢
    rw [List.countP_cons_of_pos _ _ (by rfl), ih]

/-- On the trace of the run. For a request with at least one name, if no policy check of the
call returned an error: the trace starts with the approvals of the effective common name and
then of each effective host name in order, each as a DNS identifier; `Begin` follows, and no
policy check comes after it; `1 + len(hosts)` policy checks are made in all; and when the common
name was taken from the first DNS name, or the host list from the common name, the first two
checks are both for that name. -/
theorem trace_policy_check_sequence {σ : Type} (pem : PemCodec)
    (ca : CertificateAuthorityImpl σ) (csr : CertificateRequest) (w : σ)
    (hnamed : csr.Subject.CommonName ≠ "" ∨ csr.DNSNames ≠ [])
    (hpolicy : ∀ ev ∈ (IssueCertificate pem ca csr w).trace, ev.isRejection = false) :
    ∃ cn b rest, effectiveCommonName csr = some cn ∧
      (IssueCertificate pem ca csr w).trace =
        approvals (cn :: effectiveHostNames csr cn) ++ Event.Begin b :: rest ∧
      (∀ ev ∈ rest, ev.isWillingToIssue = false) ∧
      (∀ id r, Event.WillingToIssue id r ∈ (IssueCertificate pem ca csr w).trace →
        id.type = IdentifierType.IdentifierDNS) ∧
      (IssueCertificate pem ca csr w).trace.countP Event.isWillingToIssue =
        1 + (effectiveHostNames csr cn).length ∧
      ((csr.Subject.CommonName = "" ∨ csr.DNSNames = []) →
        ∃ more, (IssueCertificate pem ca csr w).trace =
          Event.WillingToIssue (dnsIdentifier cn) none ::
            Event.WillingToIssue (dnsIdentifier cn) none :: more) := by
  have hshape : ∃ cn b rest, effectiveCommonName csr = some cn ∧
      (IssueCertificate pem ca csr w).trace =
        approvals (cn :: effectiveHostNames csr cn) ++ Event.Begin b :: rest ∧
      (∀ ev ∈ rest, ev.isWillingToIssue = false) := by
    obtain ⟨c, e', t, -, -, ht, hp⟩ := run_shape pem ca csr w
    rw [ht] at hpolicy
    rw [ht]
    cases hp
    case missingHostname h1 h2 => rcases hnamed with h | h <;> simp_all
    case policyRejection cn pre name post ce h1 h2 =>
      have := hpolicy (Event.WillingToIssue (dnsIdentifier name) (some ce)) (by simp)
      simp [Event.isRejection] at this
    case serialFailure cn b v ce h1 =>
      exact ⟨cn, b, _, h1, rfl, by simp [Event.isWillingToIssue]⟩
    case signFailure cn b v resp ce r h1 =>
      exact ⟨cn, b, _, h1, rfl, by simp [Event.isWillingToIssue]⟩
    case emptyResponse cn b v r h1 =>
      exact ⟨cn, b, _, h1, rfl, by simp [Event.isWillingToIssue]⟩
    case invalidCertificate cn b v resp r h1 h2 h3 =>
      exact ⟨cn, b, _, h1, rfl, by simp [Event.isWillingToIssue]⟩
    case storageFailure cn b v resp block id ce r h1 h2 h3 h4 =>
      exact ⟨cn, b, _, h1, rfl, by simp [Event.isWillingToIssue]⟩
    case issued cn b v resp block id cm h1 h2 h3 h4 =>
      exact ⟨cn, b, _, h1, rfl, by simp [Event.isWillingToIssue]⟩
  obtain ⟨cn, b, rest, hcn, ht, hrest⟩ := hshape
  obtain ⟨-, n2, n3, n4⟩ := effective_names csr cn hcn
  refine ⟨cn, b, rest, hcn, ht, hrest, ?_, ?_, ?_⟩
  · intro id r _
    cases id.type
    rfl
  · have hzero : rest.countP Event.isWillingToIssue = 0 := by
      rw [List.countP_eq_zero]
      intro ev hev
      simp [hrest ev hev]
    rw [ht, List.countP_append, countP_isWillingToIssue_approvals, List.countP_cons, hzero]
    simp [Event.isWillingToIssue]
    omega
  · intro hderived
    rw [ht]
    rcases hderived with hcn0 | hdns
    · have hhead := n2 hcn0
      have hne : csr.DNSNames ≠ [] := by
        intro hnil
        simp [hnil] at hhead
      rw [n3 hne]
      cases hd : csr.DNSNames with
      | nil => exact absurd hd hne
      | cons d ds =>
        rw [hd] at hhead
        simp at hhead
        subst hhead
        exact ⟨_, by simp [approvals]; rfl⟩
    · rw [n4 hdns]
      exact ⟨_, by simp [approvals]; rfl⟩

/-- Claim C19. If an `IncrementAndGetSerial` of the call returned an error, `IssueCertificate`
returns that error with the empty certificate; the failed allocation is the last entry of
the trace, and `Sign`, `AddCertificate` and `Commit` are not called. -/
theorem C19_serial_failure {σ : Type} (pem : PemCodec) (ca : CertificateAuthorityImpl σ)
    (csr : CertificateRequest) (w : σ) (v : Int) (e : CollabError)
    (h : Event.IncrementAndGetSerial v (some e) ∈ (IssueCertificate pem ca csr w).trace) :
    (IssueCertificate pem ca csr w).err = some (GoError.fromCollaborator e) ∧
    (IssueCertificate pem ca csr w).cert = Certificate.empty ∧
    (∃ front, (IssueCertificate pem ca csr w).trace =
      front ++ [Event.IncrementAndGetSerial v (some e)]) ∧
    (IssueCertificate pem ca csr w).trace.countP Event.isSign = 0 ∧
    (IssueCertificate pem ca csr w).trace.countP Event.isAddCertificate = 0 ∧
    (IssueCertificate pem ca csr w).trace.countP Event.isCommit = 0 := by
  obtain ⟨c, e', t, hc, he, ht, hp⟩ := run_shape pem ca csr w
  rw [ht] at h
  rw [hc, he, ht]
  cases hp <;> simp [mem_approvals] at h
  case serialFailure cn b v' ce h1 =>
    obtain ⟨rfl, rfl⟩ := h
    refine ⟨rfl, rfl, ⟨approvals (cn :: effectiveHostNames csr cn) ++ [Event.Begin b], by simp⟩,
      ?_, ?_, ?_⟩ <;>
    simp [List.countP_append, List.countP_cons, countP_approvals, Event.isSign,
      Event.isAddCertificate, Event.isCommit]

/-- Claim C19 at a concrete input. The request for `example.com` with a database whose
`IncrementAndGetSerial` fails. -/
theorem C19_serial_failure_witness :
    (IssueCertificate tagPem (testCA [] true [1, 7, 7] none none) exampleCSR 0).err =
        some (GoError.fromCollaborator ⟨"database is locked"⟩) ∧
      (IssueCertificate tagPem (testCA [] true [1, 7, 7] none none) exampleCSR 0).trace.countP
        Event.isSign = 0 :=
  have h := C19_serial_failure tagPem (testCA [] true [1, 7, 7] none none) exampleCSR 0 0
    ⟨"database is locked"⟩ (by decide)
  ⟨h.1, h.2.2.2.1⟩

/-- A number that is not negative is written with at least as many characters as the width
and at least as many as it has digits. -/
theorem fmtInteger_length_ge (wid : Nat) (a : Int) (h0 : 0 ≤ a) :
    wid ≤ (fmtInteger wid a).length ∧ (fmtHex a.natAbs).length ≤ (fmtInteger wid a).length := by
  have hneg : ¬ a < 0 := by omega
  simp [fmtInteger, hneg, zeroExtend, padLeft]
  omega

/-- Outside the supported range the serial string has more than 16 characters. -/
theorem serialHex_length_gt (p n : Int)
    (h : (256 ≤ p ∧ 0 ≤ n) ∨ (2 ^ 56 ≤ n ∧ 0 ≤ p)) : 16 < (serialHex p n).length := by
  have hlen : (serialHex p n).length = (fmtInteger 2 p).length + (fmtInteger 14 n).length := by
    simp [serialHex, String.length]
  rw [hlen]
  rcases h with ⟨hp, hn⟩ | ⟨hn, hp⟩
  · have h1 := (fmtInteger_length_ge 2 p (by omega)).2
    have h2 := (fmtInteger_length_ge 14 n hn).1
    have h3 := fmtHex_length_gt p.natAbs 2 (by norm_num; omega)
    omega
  · have h1 := (fmtInteger_length_ge 2 p hp).1
    have h2 := (fmtInteger_length_ge 14 n (by positivity)).2
    have h3 := fmtHex_length_gt n.natAbs 14 (by norm_num; omega)
    omega

/-- On the trace of the run. If the `IncrementAndGetSerial` of the call returned the value `n`
without error, and the prefix `p` of the CA is at least 256 with `n` not negative, or `n` is at
least 2^56 with `p` not negative, then the serial string formatted from `p` and `n` has more
than 16 characters, and `Signer.Sign` is called with a request that carries exactly that string.
-/
theorem trace_no_range_check {σ : Type} (pem : PemCodec) (ca : CertificateAuthorityImpl σ)
    (csr : CertificateRequest) (w : σ) (n : Int)
    (hrange : (256 ≤ ca.Prefix ∧ 0 ≤ n) ∨ (2 ^ 56 ≤ n ∧ 0 ≤ ca.Prefix))
    (h : Event.IncrementAndGetSerial n none ∈ (IssueCertificate pem ca csr w).trace) :
    16 < (serialHex ca.Prefix n).length ∧
    ∃ req resp se, Event.Sign req resp se ∈ (IssueCertificate pem ca csr w).trace ∧
      req.SerialSeq = serialHex ca.Prefix n ∧ 16 < req.SerialSeq.length := by
  have hlen := serialHex_length_gt ca.Prefix n hrange
  refine ⟨hlen, ?_⟩
  obtain ⟨c, e', t, -, -, ht, hp⟩ := run_shape pem ca csr w
  rw [ht] at h
  rw [ht]
  cases hp <;> simp [mem_approvals] at h
  case signFailure cn b v resp ce r h1 =>
    obtain ⟨-, rfl⟩ := h
    exact ⟨signRequest pem ca csr cn n, resp, some ce, by simp, rfl, hlen⟩
  case emptyResponse cn b v r h1 =>
    obtain ⟨-, rfl⟩ := h
    exact ⟨signRequest pem ca csr cn n, [], none, by simp, rfl, hlen⟩
  case invalidCertificate cn b v resp r h1 h2 h3 =>
    obtain ⟨-, rfl⟩ := h
    exact ⟨signRequest pem ca csr cn n, resp, none, by simp, rfl, hlen⟩
  case storageFailure cn b v resp block id ce r h1 h2 h3 h4 =>
    obtain ⟨-, rfl⟩ := h
    exact ⟨signRequest pem ca csr cn n, resp, none, by simp, rfl, hlen⟩
  case issued cn b v resp block id cm h1 h2 h3 h4 =>
    obtain ⟨-, rfl⟩ := h
    exact ⟨signRequest pem ca csr cn n, resp, none, by simp, rfl, hlen⟩

/-! ## Order of calls -/

theorem precedesFrom_sound (p q : Event → Bool) (trace : List Event) (seen : Bool)
    (h : precedesFrom p q seen trace = true) :
    ∀ front ev rest, trace = front ++ ev :: rest → q ev = true →
      seen = true ∨ ∃ x ∈ front, p x = true := by
  induction trace generalizing seen with
  | nil =>
    intro front ev rest hsplit
    simp at hsplit
  | cons a tl ih =>
    intro front ev rest hsplit hq
    simp only [precedesFrom, Bool.and_eq_true, Bool.or_eq_true, Bool.not_eq_true'] at h
    obtain ⟨hhead, htail⟩ := h
    cases front with
    | nil =>
      simp only [List.nil_append, List.cons.injEq] at hsplit
      obtain ⟨rfl, -⟩ := hsplit
      rcases hhead with hh | hh
      · rw [hq] at hh; exact absurd hh (by simp)
      · exact Or.inl hh
    | cons f fs =>
      simp only [List.cons_append, List.cons.injEq] at hsplit
      obtain ⟨rfl, hrest⟩ := hsplit
      rcases ih (seen || p a) htail fs ev rest hrest hq with hs | ⟨x, hx, hpx⟩
      · simp only [Bool.or_eq_true] at hs
        rcases hs with hs | hs
        · exact Or.inl hs
        · exact Or.inr ⟨a, by simp, hs⟩
      · exact Or.inr ⟨x, by simp [hx], hpx⟩

theorem precedes_of_check (p q : Event → Bool) (trace : List Event)
    (h : precedesFrom p q false trace = true) : Precedes p q trace := by
  intro front ev rest hsplit hq
  rcases precedesFrom_sound p q trace false h front ev rest hsplit hq with hs | hx
  · exact absurd hs (by simp)
  · exact hx

theorem precedesFrom_approvals (p q : Event → Bool) (names : List String) (tail : List Event)
    (seen : Bool) (hp : ∀ id r, p (Event.WillingToIssue id r) = false)
    (hq : ∀ id r, q (Event.WillingToIssue id r) = false) :
    precedesFrom p q seen (approvals names ++ tail) = precedesFrom p q seen tail := by
  induction names with
  | nil => rfl
  | cons n ns ih =>
    simp only [approvals, List.map_cons, List.cons_append, precedesFrom, hp, hq] at ih ⊢
    simpa using ih

/-- Claim C18. In the trace of any call, `Begin`, `IncrementAndGetSerial`, `Sign`,
`AddCertificate` and `Commit` each occur at most once; every `IncrementAndGetSerial` has a
`Begin` before it, every `Sign` an `IncrementAndGetSerial`, every `AddCertificate` a `Sign`,
and every `Commit` an `AddCertificate`; `Rollback` occurs at most once, has a `Begin` before
it, and does not occur in a trace that holds a `Commit`. -/
theorem C18_trace_shape {σ : Type} (pem : PemCodec) (ca : CertificateAuthorityImpl σ)
    (csr : CertificateRequest) (w : σ) :
    (IssueCertificate pem ca csr w).trace.countP Event.isBegin ≤ 1 ∧
    (IssueCertificate pem ca csr w).trace.countP Event.isIncrementAndGetSerial ≤ 1 ∧
    (IssueCertificate pem ca csr w).trace.countP Event.isSign ≤ 1 ∧
    (IssueCertificate pem ca csr w).trace.countP Event.isAddCertificate ≤ 1 ∧
    (IssueCertificate pem ca csr w).trace.countP Event.isCommit ≤ 1 ∧
    (IssueCertificate pem ca csr w).trace.countP Event.isRollback ≤ 1 ∧
    Precedes Event.isBegin Event.isIncrementAndGetSerial (IssueCertificate pem ca csr w).trace ∧
    Precedes Event.isIncrementAndGetSerial Event.isSign (IssueCertificate pem ca csr w).trace ∧
    Precedes Event.isSign Event.isAddCertificate (IssueCertificate pem ca csr w).trace ∧
    Precedes Event.isAddCertificate Event.isCommit (IssueCertificate pem ca csr w).trace ∧
    Precedes Event.isBegin Event.isRollback (IssueCertificate pem ca csr w).trace ∧
    ((IssueCertificate pem ca csr w).trace.countP Event.isCommit = 0 ∨
      (IssueCertificate pem ca csr w).trace.countP Event.isRollback = 0) := by
  obtain ⟨c, e', t, -, -, ht, hp⟩ := run_shape pem ca csr w
  rw [ht]
  cases hp
  case missingHostname h1 h2 =>
    refine ⟨?_, ?_, ?_, ?_, ?_, ?_, ?_, ?_, ?_, ?_, ?_, ?_⟩ <;>
      first
        | (apply precedes_of_check; rfl)
        | simp [Event.isBegin, Event.isIncrementAndGetSerial, Event.isSign,
            Event.isAddCertificate, Event.isCommit, Event.isRollback]
  all_goals
    refine ⟨?_, ?_, ?_, ?_, ?_, ?_, ?_, ?_, ?_, ?_, ?_, ?_⟩ <;>
      first
        | (apply precedes_of_check
           rw [precedesFrom_approvals _ _ _ _ _ (fun _ _ => rfl) (fun _ _ => rfl)]
           rfl)
        | simp [List.countP_append, List.countP_cons, countP_approvals, Event.isBegin,
            Event.isIncrementAndGetSerial, Event.isSign, Event.isAddCertificate,
            Event.isCommit, Event.isRollback]

/-- Claim C18 at a concrete input. The request for `example.com` with a signer that fails:
one `Rollback`, after the `Begin`, and no `Commit`. -/
theorem C18_trace_shape_witness :
    (IssueCertificate tagPem (testCA [] false [] (some ⟨"connection refused"⟩) none)
        exampleCSR 0).trace.countP Event.isRollback ≤ 1 ∧
      Precedes Event.isBegin Event.isRollback
        (IssueCertificate tagPem (testCA [] false [] (some ⟨"connection refused"⟩) none)
          exampleCSR 0).trace :=
  have h := C18_trace_shape tagPem (testCA [] false [] (some ⟨"connection refused"⟩) none)
    exampleCSR 0
  ⟨h.2.2.2.2.2.1, h.2.2.2.2.2.2.2.2.2.2.1⟩

/-! ## The serial allocator -/

theorem allocations_chain (n : Nat) (db : CertificateAuthorityDatabaseImpl) (v : Int)
    (h : db.activeTx = some v) :
    (allocations n db).length = n ∧ List.Chain (fun a b => b = a + 1) v (allocations n db) := by
  induction n generalizing db v with
  | zero => simp [allocations]
  | succ n ih =>
    have hstep : allocations (n + 1) db =
        (v + 1) :: allocations n { db with activeTx := some (v + 1) } := by
      simp [allocations, CertificateAuthorityDatabaseImpl.IncrementAndGetSerial, h]
    obtain ⟨h1, h2⟩ := ih { db with activeTx := some (v + 1) } (v + 1) rfl
    rw [hstep]
    exact ⟨by simp [h1], List.Chain.cons rfl h2⟩

/-- Claim C15. For the allocator in any state: `Begin` succeeds exactly when no transaction
is active, then leaves one active, and otherwise fails with `AlreadyActiveError`; `Commit`
succeeds exactly when a transaction is active, otherwise fails with
`NoActiveTransactionError`, and leaves no transaction active; `IncrementAndGetSerial` with
no transaction active fails with `NoActiveTransactionError`. From a state with no
transaction active, `Begin`, `Begin`, `Commit`, `Commit` give ok, error, ok, error. -/
theorem C15_transaction_exclusivity (db : CertificateAuthorityDatabaseImpl) :
    ((allocatorDB.Begin db).1 = none ↔ db.activeTx = none) ∧
    (db.activeTx = none → (allocatorDB.Begin db).2.activeTx ≠ none) ∧
    (db.activeTx ≠ none → (allocatorDB.Begin db).1 = some AlreadyActiveError) ∧
    ((allocatorDB.Commit db).1 = none ↔ db.activeTx ≠ none) ∧
    (db.activeTx = none → (allocatorDB.Commit db).1 = some NoActiveTransactionError) ∧
    (allocatorDB.Commit db).2.activeTx = none ∧
    (db.activeTx = none →
      (allocatorDB.IncrementAndGetSerial db).1.2 = some NoActiveTransactionError) ∧
    (db.activeTx = none →
      (allocatorDB.Begin db).1 = none ∧
      (allocatorDB.Begin (allocatorDB.Begin db).2).1 ≠ none ∧
      (allocatorDB.Commit (allocatorDB.Begin (allocatorDB.Begin db).2).2).1 = none ∧
      (allocatorDB.Commit
        (allocatorDB.Commit (allocatorDB.Begin (allocatorDB.Begin db).2).2).2).1 ≠ none) := by
  obtain ⟨serial, tx⟩ := db
  cases tx <;>
    simp [allocatorDB, CertificateAuthorityDatabaseImpl.Begin,
      CertificateAuthorityDatabaseImpl.Commit,
      CertificateAuthorityDatabaseImpl.IncrementAndGetSerial]

/-- Claim C15 at a concrete input. The allocator with counter 0 and no transaction active,
as in `TestBeginCommit` and `TestGetSetSequenceOutsideTx`. -/
theorem C15_transaction_exclusivity_witness :
    (allocatorDB.Begin ⟨0, none⟩).1 = none ∧
      (allocatorDB.Begin (allocatorDB.Begin ⟨0, none⟩).2).1 ≠ none ∧
      (allocatorDB.Commit (allocatorDB.Begin (allocatorDB.Begin ⟨0, none⟩).2).2).1 = none ∧
      (allocatorDB.Commit
        (allocatorDB.Commit (allocatorDB.Begin (allocatorDB.Begin ⟨0, none⟩).2).2).2).1 ≠
        none :=
  (C15_transaction_exclusivity ⟨0, none⟩).2.2.2.2.2.2.2 rfl

/-- Claim C16. For the allocator with a transaction active: `IncrementAndGetSerial` succeeds,
a second call right after it succeeds too and returns the value of the first plus one; and
any number of calls made one after the other all succeed and return values of which each
is the one before it plus one, so the values are strictly increasing. -/
theorem C16_serial_increments (db : CertificateAuthorityDatabaseImpl)
    (hactive : db.activeTx ≠ none) :
    (allocatorDB.IncrementAndGetSerial db).1.2 = none ∧
    (allocatorDB.IncrementAndGetSerial (allocatorDB.IncrementAndGetSerial db).2).1.2 = none ∧
    (allocatorDB.IncrementAndGetSerial (allocatorDB.IncrementAndGetSerial db).2).1.1 =
      (allocatorDB.IncrementAndGetSerial db).1.1 + 1 ∧
    ∀ n, (allocations n db).length = n ∧
      List.Chain' (fun num num2 => num2 = num + 1) (allocations n db) ∧
      List.Pairwise (fun num num2 => num < num2) (allocations n db) := by
  obtain ⟨serial, tx⟩ := db
  cases tx with
  | none => exact absurd rfl hactive
  | some v =>
    refine ⟨by simp [allocatorDB, CertificateAuthorityDatabaseImpl.IncrementAndGetSerial],
      by simp [allocatorDB, CertificateAuthorityDatabaseImpl.IncrementAndGetSerial],
      by simp [allocatorDB, CertificateAuthorityDatabaseImpl.IncrementAndGetSerial], ?_⟩
    intro n
    obtain ⟨hlen, hchain⟩ := allocations_chain n ⟨serial, some v⟩ v rfl
    have hchain' : List.Chain' (fun num num2 => num2 = num + 1)
        (allocations n ⟨serial, some v⟩) := by
      cases hl : allocations n ⟨serial, some v⟩ with
      | nil => exact List.chain'_nil
      | cons a l =>
        rw [hl] at hchain
        exact (List.chain_cons.mp hchain).2
    refine ⟨hlen, hchain', ?_⟩
    have hlt : List.Chain' (fun num num2 : Int => num < num2)
        (allocations n ⟨serial, some v⟩) :=
      hchain'.imp (fun a b hab => by omega)
    exact List.chain'_iff_pairwise.mp hlt

/-- Claim C16 at a concrete input. The allocator with a transaction active at counter 0, as in
`TestGetSetSequenceNumber`: three calls return 1, 2, 3. -/
theorem C16_serial_increments_witness :
    allocations 3 ⟨0, some 0⟩ = [1, 2, 3] ∧
      (allocatorDB.IncrementAndGetSerial
        (allocatorDB.IncrementAndGetSerial ⟨0, some 0⟩).2).1.1 =
      (allocatorDB.IncrementAndGetSerial ⟨0, some 0⟩).1.1 + 1 :=
  ⟨by decide, (C16_serial_increments ⟨0, some 0⟩ (by decide)).2.2.1⟩

/-! ## The journal of the collaborators -/

theorem rangeHostNames_recording {σ : Type} (ca : CertificateAuthorityImpl σ)
    (names : List String) (w : σ) (l : List Event) :
    (rangeHostNames (recording ca) names (w, l)).err = (rangeHostNames ca names w).err ∧
    (rangeHostNames (recording ca) names (w, l)).world =
      ((rangeHostNames ca names w).world,
        l ++ (rangeHostNames ca names w).trace.filter Event.isCall) ∧
    (rangeHostNames (recording ca) names (w, l)).trace = (rangeHostNames ca names w).trace := by
  induction names generalizing w l with
  | nil => simp [rangeHostNames]
  | cons name rest ih =>
    unfold rangeHostNames
    simp only [recording]
    cases hr : (ca.PA.WillingToIssue (dnsIdentifier name) w).1 with
    | some e => simp [Event.isCall]
    | none =>
      simp only []
      obtain ⟨h1, h2, h3⟩ := ih (ca.PA.WillingToIssue (dnsIdentifier name) w).2
        (l ++ [Event.WillingToIssue (dnsIdentifier name) none])
      simp only [recording, hr] at h1 h2 h3
      simp [h1, h2, h3, Event.isCall]

theorem recording_WillingToIssue {σ : Type} (ca : CertificateAuthorityImpl σ)
    (id : AcmeIdentifier) (s : σ × List Event) :
    (recording ca).PA.WillingToIssue id s =
      ((ca.PA.WillingToIssue id s.1).1,
        ((ca.PA.WillingToIssue id s.1).2,
          s.2 ++ [Event.WillingToIssue id (ca.PA.WillingToIssue id s.1).1])) := rfl

theorem recording_Begin {σ : Type} (ca : CertificateAuthorityImpl σ) (s : σ × List Event) :
    (recording ca).DB.Begin s =
      ((ca.DB.Begin s.1).1, ((ca.DB.Begin s.1).2, s.2 ++ [Event.Begin (ca.DB.Begin s.1).1])) :=
  rfl

theorem recording_IncrementAndGetSerial {σ : Type} (ca : CertificateAuthorityImpl σ)
    (s : σ × List Event) :
    (recording ca).DB.IncrementAndGetSerial s =
      ((ca.DB.IncrementAndGetSerial s.1).1,
        ((ca.DB.IncrementAndGetSerial s.1).2,
          s.2 ++ [Event.IncrementAndGetSerial (ca.DB.IncrementAndGetSerial s.1).1.1
            (ca.DB.IncrementAndGetSerial s.1).1.2])) := rfl

theorem recording_Sign {σ : Type} (ca : CertificateAuthorityImpl σ) (req : SignRequest)
    (s : σ × List Event) :
    (recording ca).Signer.Sign req s =
      ((ca.Signer.Sign req s.1).1,
        ((ca.Signer.Sign req s.1).2,
          s.2 ++ [Event.Sign req (ca.Signer.Sign req s.1).1.1 (ca.Signer.Sign req s.1).1.2])) :=
  rfl

theorem recording_AddCertificate {σ : Type} (ca : CertificateAuthorityImpl σ) (der : Bytes)
    (s : σ × List Event) :
    (recording ca).SA.AddCertificate der s =
      ((ca.SA.AddCertificate der s.1).1,
        ((ca.SA.AddCertificate der s.1).2,
          s.2 ++ [Event.AddCertificate der (ca.SA.AddCertificate der s.1).1.1
            (ca.SA.AddCertificate der s.1).1.2])) := rfl

theorem recording_Commit {σ : Type} (ca : CertificateAuthorityImpl σ) (s : σ × List Event) :
    (recording ca).DB.Commit s =
      ((ca.DB.Commit s.1).1,
        ((ca.DB.Commit s.1).2, s.2 ++ [Event.Commit (ca.DB.Commit s.1).1])) := rfl

theorem recording_Rollback {σ : Type} (ca : CertificateAuthorityImpl σ) (s : σ × List Event) :
    (recording ca).DB.Rollback s =
      ((ca.DB.Rollback s.1).1,
        ((ca.DB.Rollback s.1).2, s.2 ++ [Event.Rollback (ca.DB.Rollback s.1).1])) := rfl

theorem recording_profile {σ : Type} (ca : CertificateAuthorityImpl σ) :
    (recording ca).profile = ca.profile := rfl

theorem recording_Prefix {σ : Type} (ca : CertificateAuthorityImpl σ) :
    (recording ca).Prefix = ca.Prefix := rfl

/-- Keeping the journal does not disturb the run: over the recording collaborators
`IssueCertificate` returns the same certificate and error, leaves the collaborators of `ca`
in the same world, and the journal holds, entry for entry, the collaborator calls of the
trace. -/
theorem recording_run {σ : Type} (pem : PemCodec) (ca : CertificateAuthorityImpl σ)
    (csr : CertificateRequest) (w : σ) (l : List Event) :
    (IssueCertificate pem (recording ca) csr (w, l)).cert =
      (IssueCertificate pem ca csr w).cert ∧
    (IssueCertificate pem (recording ca) csr (w, l)).err =
      (IssueCertificate pem ca csr w).err ∧
    (IssueCertificate pem (recording ca) csr (w, l)).world =
      ((IssueCertificate pem ca csr w).world,
        l ++ (IssueCertificate pem ca csr w).trace.filter Event.isCall) ∧
    (IssueCertificate pem (recording ca) csr (w, l)).trace =
      (IssueCertificate pem ca csr w).trace := by
  have hcn : (if csr.Subject.CommonName.length > 0 then some csr.Subject.CommonName
      else match csr.DNSNames with
        | first :: _ => some first
        | [] => none) = effectiveCommonName csr := by
    unfold effectiveCommonName
    split
    · rfl
    · cases csr.DNSNames <;> rfl
  unfold IssueCertificate
  simp only [hcn]
  cases hc : effectiveCommonName csr with
  | none => simp [Event.isCall]
  | some cn =>
    have hh : (if csr.DNSNames.length = 0 then [cn] else csr.DNSNames) =
        effectiveHostNames csr cn := rfl
    simp only [hh, recording_WillingToIssue]
    cases h1 : (ca.PA.WillingToIssue (dnsIdentifier cn) w).1 with
    | some e => simp [Event.isCall]
    | none =>
      simp only []
      obtain ⟨e1, e2, e3⟩ := rangeHostNames_recording ca (effectiveHostNames csr cn)
        (ca.PA.WillingToIssue (dnsIdentifier cn) w).2
        (l ++ [Event.WillingToIssue (dnsIdentifier cn) none])
      simp only [e1, e2, e3, recording_Begin, recording_IncrementAndGetSerial, recording_Sign,
        recording_AddCertificate, recording_Commit, recording_Rollback, recording_profile,
        recording_Prefix]
      generalize rangeHostNames ca (effectiveHostNames csr cn)
        (ca.PA.WillingToIssue (dnsIdentifier cn) w).2 = loop
      obtain ⟨lerr, w₂, ltrace⟩ := loop
      cases lerr with
      | some e => simp [Event.isCall]
      | none =>
        simp only []
        generalize ca.DB.Begin w₂ = rb
        generalize ca.DB.IncrementAndGetSerial rb.2 = ri
        obtain ⟨⟨v, ie⟩, w₄⟩ := ri
        cases ie with
        | some e => simp [Event.isCall, List.filter_append]
        | none =>
          simp only []
          generalize ca.Signer.Sign _ w₄ = rs
          obtain ⟨⟨resp, se⟩, w₅⟩ := rs
          cases se with
          | some e => simp [Event.isCall, List.filter_append]
          | none =>
            simp only []
            by_cases hlen : resp.length = 0
            · simp [hlen, Event.isCall, List.filter_append]
            · simp only [if_neg hlen]
              cases hd : (pem.Decode resp).1 with
              | none => simp [Event.isCall, List.filter_append]
              | some block =>
                simp only []
                by_cases ht : block.type = "CERTIFICATE"
                · simp only [ne_eq, ht, not_true_eq_false, if_false]
                  generalize ca.SA.AddCertificate block.bytes w₅ = ra
                  obtain ⟨⟨id, ae⟩, w₆⟩ := ra
                  cases ae with
                  | some e => simp [Event.isCall, List.filter_append]
                  | none => simp [Event.isCall, List.filter_append]
                · simp [ht, Event.isCall, List.filter_append]

/-- The journal of the collaborators is the trace of the run without the calls of the audit
logger. -/
theorem calls_eq {σ : Type} (pem : PemCodec) (ca : CertificateAuthorityImpl σ)
    (csr : CertificateRequest) (w : σ) :
    calls pem ca csr w = (IssueCertificate pem ca csr w).trace.filter Event.isCall := by
  unfold calls
  rw [(recording_run pem ca csr w []).2.2.1]
  simp

theorem rangeHostNames_invariant {σ : Type} (I : σ → Prop) (ca : CertificateAuthorityImpl σ)
    (hPA : ∀ id s, I s → I (ca.PA.WillingToIssue id s).2) (names : List String) (w : σ)
    (h0 : I w) : I (rangeHostNames ca names w).world := by
  induction names generalizing w with
  | nil => exact h0
  | cons name rest ih =>
    unfold rangeHostNames
    simp only []
    split
    · exact hPA _ _ h0
    · exact ih _ (hPA _ _ h0)

/-- A property of the world that every collaborator call preserves holds of the world
`IssueCertificate` leaves behind, if it held of the world the call started in: the world
changes through collaborator calls only. -/
theorem IssueCertificate_invariant {σ : Type} (I : σ → Prop) (pem : PemCodec)
    (ca : CertificateAuthorityImpl σ) (csr : CertificateRequest) (w : σ)
    (hPA : ∀ id s, I s → I (ca.PA.WillingToIssue id s).2)
    (hB : ∀ s, I s → I (ca.DB.Begin s).2)
    (hI : ∀ s, I s → I (ca.DB.IncrementAndGetSerial s).2)
    (hS : ∀ req s, I s → I (ca.Signer.Sign req s).2)
    (hA : ∀ der s, I s → I (ca.SA.AddCertificate der s).2)
    (hC : ∀ s, I s → I (ca.DB.Commit s).2)
    (hR : ∀ s, I s → I (ca.DB.Rollback s).2)
    (h0 : I w) : I (IssueCertificate pem ca csr w).world := by
  have hcn : (if csr.Subject.CommonName.length > 0 then some csr.Subject.CommonName
      else match csr.DNSNames with
        | first :: _ => some first
        | [] => none) = effectiveCommonName csr := by
    unfold effectiveCommonName
    split
    · rfl
    · cases csr.DNSNames <;> rfl
  unfold IssueCertificate
  simp only [hcn]
  cases effectiveCommonName csr with
  | none => exact h0
  | some cn =>
    have hh : (if csr.DNSNames.length = 0 then [cn] else csr.DNSNames) =
        effectiveHostNames csr cn := rfl
    have hloop : I (rangeHostNames ca (effectiveHostNames csr cn)
        (ca.PA.WillingToIssue (dnsIdentifier cn) w).2).world :=
      rangeHostNames_invariant I ca hPA _ _ (hPA _ w h0)
    simp only [hh]
    repeat' split
    all_goals
      first
        | exact h0
        | exact hPA _ _ h0
        | exact hloop
        | exact hI _ (hB _ hloop)
        | exact hR _ (hS _ _ (hI _ (hB _ hloop)))
        | exact hR _ (hA _ _ (hS _ _ (hI _ (hB _ hloop))))
        | exact hC _ (hA _ _ (hS _ _ (hI _ (hB _ hloop))))

/-- Every entry of the journal states results that the collaborator of `ca` gave to these
arguments in some world: the journal holds no entry for a call that was not made and no
result that was not returned. -/
theorem calls_answered {σ : Type} (pem : PemCodec) (ca : CertificateAuthorityImpl σ)
    (csr : CertificateRequest) (w : σ) : ∀ ev ∈ calls pem ca csr w, Answered ca ev := by
  unfold calls
  apply IssueCertificate_invariant (fun s : σ × List Event => ∀ ev ∈ s.2, Answered ca ev)
  · intro id s hs ev hev
    simp only [recording_WillingToIssue, List.mem_append, List.mem_singleton] at hev
    rcases hev with hev | rfl
    · exact hs ev hev
    · exact ⟨s.1, rfl⟩
  · intro s hs ev hev
    simp only [recording_Begin, List.mem_append, List.mem_singleton] at hev
    rcases hev with hev | rfl
    · exact hs ev hev
    · exact ⟨s.1, rfl⟩
  · intro s hs ev hev
    simp only [recording_IncrementAndGetSerial, List.mem_append, List.mem_singleton] at hev
    rcases hev with hev | rfl
    · exact hs ev hev
    · exact ⟨s.1, rfl⟩
  · intro req s hs ev hev
    simp only [recording_Sign, List.mem_append, List.mem_singleton] at hev
    rcases hev with hev | rfl
    · exact hs ev hev
    · exact ⟨s.1, rfl⟩
  · intro der s hs ev hev
    simp only [recording_AddCertificate, List.mem_append, List.mem_singleton] at hev
    rcases hev with hev | rfl
    · exact hs ev hev
    · exact ⟨s.1, rfl⟩
  · intro s hs ev hev
    simp only [recording_Commit, List.mem_append, List.mem_singleton] at hev
    rcases hev with hev | rfl
    · exact hs ev hev
    · exact ⟨s.1, rfl⟩
  · intro s hs ev hev
    simp only [recording_Rollback, List.mem_append, List.mem_singleton] at hev
    rcases hev with hev | rfl
    · exact hs ev hev
    · exact ⟨s.1, rfl⟩
  · intro ev hev
    simp at hev

theorem mem_calls {σ : Type} (pem : PemCodec) (ca : CertificateAuthorityImpl σ)
    (csr : CertificateRequest) (w : σ) (ev : Event) :
    ev ∈ calls pem ca csr w ↔
      ev ∈ (IssueCertificate pem ca csr w).trace ∧ ev.isCall = true := by
  rw [calls_eq, List.mem_filter]

theorem countP_calls {σ : Type} (pem : PemCodec) (ca : CertificateAuthorityImpl σ)
    (csr : CertificateRequest) (w : σ) (p : Event → Bool)
    (hp : ∀ ev, p ev = true → ev.isCall = true) :
    (calls pem ca csr w).countP p = (IssueCertificate pem ca csr w).trace.countP p := by
  rw [calls_eq, List.countP_filter]
  apply List.countP_congr
  intro ev _
  constructor
  · intro h
    simp only [Bool.and_eq_true] at h
    exact h.1
  · intro h
    simp [h, hp ev h]

theorem filter_isCall_approvals (names : List String) :
    (approvals names).filter Event.isCall = approvals names := by
  rw [List.filter_eq_self]
  intro ev hev
  obtain ⟨name, -, rfl⟩ := (mem_approvals ev names).mp hev
  rfl

theorem isCall_of_isRollback (ev : Event) (h : ev.isRollback = true) : ev.isCall = true := by
  cases ev <;> simp_all [Event.isRollback, Event.isCall]

theorem isCall_of_isCommit (ev : Event) (h : ev.isCommit = true) : ev.isCall = true := by
  cases ev <;> simp_all [Event.isCommit, Event.isCall]

theorem isCall_of_isAddCertificate (ev : Event) (h : ev.isAddCertificate = true) :
    ev.isCall = true := by
  cases ev <;> simp_all [Event.isAddCertificate, Event.isCall]

theorem isCall_of_isSign (ev : Event) (h : ev.isSign = true) : ev.isCall = true := by
  cases ev <;> simp_all [Event.isSign, Event.isCall]

theorem isCall_of_isWillingToIssue (ev : Event) (h : ev.isWillingToIssue = true) :
    ev.isCall = true := by
  cases ev <;> simp_all [Event.isWillingToIssue, Event.isCall]

/-- A run whose journal ends with a `Rollback` that is the only one. -/
theorem calls_end_with_rollback {σ : Type} (pem : PemCodec) (ca : CertificateAuthorityImpl σ)
    (csr : CertificateRequest) (w : σ)
    (h : (IssueCertificate pem ca csr w).trace.countP Event.isRollback = 1) :
    ∃ front r, calls pem ca csr w = front ++ [Event.Rollback r] ∧
      ∃ s, (ca.DB.Rollback s).1 = r := by
  have hshape : ∃ front r, calls pem ca csr w = front ++ [Event.Rollback r] := by
    rw [calls_eq]
    obtain ⟨c, e', t, -, -, ht, hp⟩ := run_shape pem ca csr w
    rw [ht] at h
    rw [ht]
    cases hp <;>
      simp [List.countP_append, List.countP_cons, countP_approvals, Event.isRollback] at h
    case signFailure cn b v resp ce r h1 =>
      exact ⟨approvals (cn :: effectiveHostNames csr cn) ++
        [Event.Begin b, Event.IncrementAndGetSerial v none,
          Event.Sign (signRequest pem ca csr cn v) resp (some ce)], r, by
        simp [List.filter_append, filter_isCall_approvals, Event.isCall]⟩
    case emptyResponse cn b v r h1 =>
      exact ⟨approvals (cn :: effectiveHostNames csr cn) ++
        [Event.Begin b, Event.IncrementAndGetSerial v none,
          Event.Sign (signRequest pem ca csr cn v) [] none], r, by
        simp [List.filter_append, filter_isCall_approvals, Event.isCall]⟩
    case invalidCertificate cn b v resp r h1 h2 h3 =>
      exact ⟨approvals (cn :: effectiveHostNames csr cn) ++
        [Event.Begin b, Event.IncrementAndGetSerial v none,
          Event.Sign (signRequest pem ca csr cn v) resp none], r, by
        simp [List.filter_append, filter_isCall_approvals, Event.isCall]⟩
    case storageFailure cn b v resp block id ce r h1 h2 h3 h4 =>
      exact ⟨approvals (cn :: effectiveHostNames csr cn) ++
        [Event.Begin b, Event.IncrementAndGetSerial v none,
          Event.Sign (signRequest pem ca csr cn v) resp none,
          Event.AddCertificate block.bytes id (some ce)], r, by
        simp [List.filter_append, filter_isCall_approvals, Event.isCall]⟩
  obtain ⟨front, r, hc⟩ := hshape
  exact ⟨front, r, hc, calls_answered pem ca csr w (Event.Rollback r) (by simp [hc])⟩

/-- Claim C8. If the signer of `ca` was called and returned an error, `IssueCertificate`
returns that error with the empty certificate; the database of `ca` receives exactly one
`Rollback`, as the last call of the run, and neither the storage authority receives an
`AddCertificate` nor the database a `Commit`. The calls are those the collaborators of `ca`
received themselves. -/
theorem C8_signer_failure {σ : Type} (pem : PemCodec) (ca : CertificateAuthorityImpl σ)
    (csr : CertificateRequest) (w : σ) (req : SignRequest) (resp : Bytes) (e : CollabError)
    (h : Event.Sign req resp (some e) ∈ calls pem ca csr w) :
    (∃ s, (ca.Signer.Sign req s).1 = (resp, some e)) ∧
    (IssueCertificate pem ca csr w).err = some (GoError.fromCollaborator e) ∧
    (IssueCertificate pem ca csr w).cert = Certificate.empty ∧
    (calls pem ca csr w).countP Event.isRollback = 1 ∧
    (∃ front r, calls pem ca csr w = front ++ [Event.Rollback r] ∧
      ∃ s, (ca.DB.Rollback s).1 = r) ∧
    (calls pem ca csr w).countP Event.isAddCertificate = 0 ∧
    (calls pem ca csr w).countP Event.isCommit = 0 := by
  have hans := calls_answered pem ca csr w _ h
  obtain ⟨h1, h2, h3, h4, h5⟩ :=
    trace_signer_failure pem ca csr w req resp e ((mem_calls pem ca csr w _).mp h).1
  refine ⟨hans, h1, h2, ?_, calls_end_with_rollback pem ca csr w h3, ?_, ?_⟩
  · rw [countP_calls pem ca csr w _ isCall_of_isRollback, h3]
  · rw [countP_calls pem ca csr w _ isCall_of_isAddCertificate, h4]
  · rw [countP_calls pem ca csr w _ isCall_of_isCommit, h5]

/-- Claim C8 at a concrete input. The request for `example.com` and `www.example.com` over
the ledger, with a signer that fails: the error is the signer's, and the ledger shows the
allocator rolled back (counter 0, no transaction active), one request at the signer and
nothing stored. -/
theorem C8_signer_failure_witness :
    (IssueCertificate tagPem (ledgerCA [] (fun _ => ([], some ⟨"connection refused"⟩)) none)
        twoNameCSR (Ledger.fresh 0)).world =
      ⟨⟨0, none⟩, ["example.com", "example.com", "www.example.com"],
        [⟨[2, 48, 0], "ee", ["example.com", "www.example.com"], ⟨"example.com"⟩,
          "0100000000000001"⟩], []⟩ ∧
    (IssueCertificate tagPem (ledgerCA [] (fun _ => ([], some ⟨"connection refused"⟩)) none)
        twoNameCSR (Ledger.fresh 0)).err =
      some (GoError.fromCollaborator ⟨"connection refused"⟩) ∧
    (calls tagPem (ledgerCA [] (fun _ => ([], some ⟨"connection refused"⟩)) none)
        twoNameCSR (Ledger.fresh 0)).countP Event.isRollback = 1 :=
  have h := C8_signer_failure tagPem
    (ledgerCA [] (fun _ => ([], some ⟨"connection refused"⟩)) none) twoNameCSR
    (Ledger.fresh 0)
    ⟨[2, 48, 0], "ee", ["example.com", "www.example.com"], ⟨"example.com"⟩,
      "0100000000000001"⟩ [] ⟨"connection refused"⟩ (by decide)
  ⟨by decide, h.2.1, h.2.2.2.1⟩

/-- Claim C9. If the signer of `ca` was called and returned a response without error, then:
an empty response makes `IssueCertificate` return the error `No certificate returned by
server`; a response that is not empty and holds no PEM block, or a block that is not of type
`CERTIFICATE`, makes it return the error `Invalid certificate value returned`; in both cases
the certificate is empty, the database of `ca` receives exactly one `Rollback`, as the last
call of the run, and neither the storage authority receives an `AddCertificate` nor the
database a `Commit`. The calls are those the collaborators of `ca` received themselves. -/
theorem C9_bad_signer_response {σ : Type} (pem : PemCodec) (ca : CertificateAuthorityImpl σ)
    (csr : CertificateRequest) (w : σ) (req : SignRequest) (resp : Bytes)
    (h : Event.Sign req resp none ∈ calls pem ca csr w)
    (hbad : resp.length = 0 ∨
      ∀ block, (pem.Decode resp).1 = some block → block.type ≠ "CERTIFICATE") :
    (∃ s, (ca.Signer.Sign req s).1 = (resp, none)) ∧
    (IssueCertificate pem ca csr w).err ≠ none ∧
    (resp.length = 0 → (IssueCertificate pem ca csr w).err =
      some (GoError.errorsNew "No certificate returned by server")) ∧
    (resp.length ≠ 0 → (IssueCertificate pem ca csr w).err =
      some (GoError.errorsNew "Invalid certificate value returned")) ∧
    (IssueCertificate pem ca csr w).cert = Certificate.empty ∧
    (calls pem ca csr w).countP Event.isRollback = 1 ∧
    (∃ front r, calls pem ca csr w = front ++ [Event.Rollback r] ∧
      ∃ s, (ca.DB.Rollback s).1 = r) ∧
    (calls pem ca csr w).countP Event.isAddCertificate = 0 ∧
    (calls pem ca csr w).countP Event.isCommit = 0 := by
  have hans := calls_answered pem ca csr w _ h
  obtain ⟨h1, h2, h3, h4, h5, h6, h7⟩ :=
    trace_bad_signer_response pem ca csr w req resp ((mem_calls pem ca csr w _).mp h).1 hbad
  refine ⟨hans, h1, h2, h3, h4, ?_, calls_end_with_rollback pem ca csr w h5, ?_, ?_⟩
  · rw [countP_calls pem ca csr w _ isCall_of_isRollback, h5]
  · rw [countP_calls pem ca csr w _ isCall_of_isAddCertificate, h6]
  · rw [countP_calls pem ca csr w _ isCall_of_isCommit, h7]

/-- Claim C9 at a concrete input. The request for `example.com` and `www.example.com` over
the ledger, with a signer that answers with a block of type `CERTIFICATE REQUEST`: the
ledger shows the allocator rolled back (counter 0, no transaction active) and nothing
stored. -/
theorem C9_bad_signer_response_witness :
    (IssueCertificate tagPem (ledgerCA [] (fun _ => ([2, 7], none)) none) twoNameCSR
        (Ledger.fresh 0)).world.db = ⟨0, none⟩ ∧
    (IssueCertificate tagPem (ledgerCA [] (fun _ => ([2, 7], none)) none) twoNameCSR
        (Ledger.fresh 0)).world.stored = [] ∧
    (IssueCertificate tagPem (ledgerCA [] (fun _ => ([2, 7], none)) none) twoNameCSR
        (Ledger.fresh 0)).err = some (GoError.errorsNew "Invalid certificate value returned") ∧
    (calls tagPem (ledgerCA [] (fun _ => ([2, 7], none)) none) twoNameCSR
        (Ledger.fresh 0)).countP Event.isRollback = 1 :=
  have h := C9_bad_signer_response tagPem (ledgerCA [] (fun _ => ([2, 7], none)) none)
    twoNameCSR (Ledger.fresh 0)
    ⟨[2, 48, 0], "ee", ["example.com", "www.example.com"], ⟨"example.com"⟩,
      "0100000000000001"⟩ [2, 7] (by decide) (Or.inr (by simp [tagPem]))
  ⟨by decide, by decide, h.2.2.2.1 (by decide), h.2.2.2.2.2.1⟩

/-- Claim C10. If the storage authority of `ca` was called and returned an error,
`IssueCertificate` returns that error; the database of `ca` receives exactly one `Rollback`,
as the last call of the run, and no `Commit`; the bytes the storage authority was given are
those of a `CERTIFICATE` block decoded from a response the signer of `ca` returned without
error. The calls are those the collaborators of `ca` received themselves. -/
theorem C10_storage_failure {σ : Type} (pem : PemCodec) (ca : CertificateAuthorityImpl σ)
    (csr : CertificateRequest) (w : σ) (der : Bytes) (id : String) (e : CollabError)
    (h : Event.AddCertificate der id (some e) ∈ calls pem ca csr w) :
    (∃ s, (ca.SA.AddCertificate der s).1 = (id, some e)) ∧
    (IssueCertificate pem ca csr w).err = some (GoError.fromCollaborator e) ∧
    (calls pem ca csr w).countP Event.isRollback = 1 ∧
    (∃ front r, calls pem ca csr w = front ++ [Event.Rollback r] ∧
      ∃ s, (ca.DB.Rollback s).1 = r) ∧
    (calls pem ca csr w).countP Event.isCommit = 0 ∧
    ∃ req resp block, Event.Sign req resp none ∈ calls pem ca csr w ∧
      (∃ s, (ca.Signer.Sign req s).1 = (resp, none)) ∧
      (pem.Decode resp).1 = some block ∧ block.type = "CERTIFICATE" ∧ der = block.bytes := by
  have hans := calls_answered pem ca csr w _ h
  obtain ⟨h1, h2, h3, req, resp, block, h4, h5, h6, h7⟩ :=
    trace_storage_failure pem ca csr w der id e ((mem_calls pem ca csr w _).mp h).1
  have hsign : Event.Sign req resp none ∈ calls pem ca csr w :=
    (mem_calls pem ca csr w _).mpr ⟨h4, rfl⟩
  refine ⟨hans, h1, ?_, calls_end_with_rollback pem ca csr w h2, ?_, req, resp, block, hsign,
    calls_answered pem ca csr w _ hsign, h5, h6, h7⟩
  · rw [countP_calls pem ca csr w _ isCall_of_isRollback, h2]
  · rw [countP_calls pem ca csr w _ isCall_of_isCommit, h3]

/-- Claim C10 at a concrete input. The request for `example.com` and `www.example.com` over
the ledger, with a storage authority that fails: the ledger shows the allocator rolled back
(counter 0, no transaction active) and nothing stored. -/
theorem C10_storage_failure_witness :
    (IssueCertificate tagPem (ledgerCA [] echoSign (some ⟨"disk full"⟩)) twoNameCSR
        (Ledger.fresh 0)).world.db = ⟨0, none⟩ ∧
    (IssueCertificate tagPem (ledgerCA [] echoSign (some ⟨"disk full"⟩)) twoNameCSR
        (Ledger.fresh 0)).world.stored = [] ∧
    (IssueCertificate tagPem (ledgerCA [] echoSign (some ⟨"disk full"⟩)) twoNameCSR
        (Ledger.fresh 0)).err = some (GoError.fromCollaborator ⟨"disk full"⟩) ∧
    (calls tagPem (ledgerCA [] echoSign (some ⟨"disk full"⟩)) twoNameCSR
        (Ledger.fresh 0)).countP Event.isRollback = 1 :=
  have h := C10_storage_failure tagPem (ledgerCA [] echoSign (some ⟨"disk full"⟩)) twoNameCSR
    (Ledger.fresh 0) (stringBytes "0100000000000001") "id"
    ⟨"disk full"⟩ (by decide)
  ⟨by decide, by decide, h.2.1, h.2.2.1⟩

/-- A run that returns no error has a journal that ends with a `Commit`. -/
theorem calls_end_with_commit {σ : Type} (pem : PemCodec) (ca : CertificateAuthorityImpl σ)
    (csr : CertificateRequest) (w : σ) (h : (IssueCertificate pem ca csr w).err = none) :
    ∃ front c, calls pem ca csr w = front ++ [Event.Commit c] ∧
      ∃ s, (ca.DB.Commit s).1 = c := by
  have hshape : ∃ front c, calls pem ca csr w = front ++ [Event.Commit c] := by
    rw [calls_eq]
    obtain ⟨c, e', t, -, he, ht, hp⟩ := run_shape pem ca csr w
    rw [he] at h
    rw [ht]
    cases hp <;> simp at h
    case issued cn b v resp block id cm h1 h2 h3 h4 =>
      exact ⟨approvals (cn :: effectiveHostNames csr cn) ++
        [Event.Begin b, Event.IncrementAndGetSerial v none,
          Event.Sign (signRequest pem ca csr cn v) resp none,
          Event.AddCertificate block.bytes id none], cm, by
        simp [List.filter_append, filter_isCall_approvals, Event.isCall]⟩
  obtain ⟨front, c, hc⟩ := hshape
  exact ⟨front, c, hc, calls_answered pem ca csr w (Event.Commit c) (by simp [hc])⟩

/-- Claim C4. For a request with at least one name: if the policy authority of `ca` returned
no error to any call, `IncrementAndGetSerial` returned no error, the signer returned to every
call, without error, a response that is not empty and decodes to a block of type
`CERTIFICATE`, and the storage authority returned no error, then `IssueCertificate` returns
no error; the signer was called, and the certificate carries the bytes of the block decoded
from its response, with status valid; the storage authority of `ca` was called with exactly
those bytes; the database of `ca` received `Commit` once, as the last call of the run, and
`Rollback` never. The calls are those the collaborators of `ca` received themselves. -/
theorem C4_successful_issuance {σ : Type} (pem : PemCodec) (ca : CertificateAuthorityImpl σ)
    (csr : CertificateRequest) (w : σ)
    (hnamed : csr.Subject.CommonName ≠ "" ∨ csr.DNSNames ≠ [])
    (hpolicy : ∀ id e, Event.WillingToIssue id (some e) ∉ calls pem ca csr w)
    (hserial : ∀ v e, Event.IncrementAndGetSerial v (some e) ∉ calls pem ca csr w)
    (hsign : ∀ req resp se, Event.Sign req resp se ∈ calls pem ca csr w →
      se = none ∧ resp ≠ [] ∧
        ∃ block, (pem.Decode resp).1 = some block ∧ block.type = "CERTIFICATE")
    (hadd : ∀ der id e, Event.AddCertificate der id (some e) ∉ calls pem ca csr w) :
    (IssueCertificate pem ca csr w).err = none ∧
    (∃ req resp block id,
      Event.Sign req resp none ∈ calls pem ca csr w ∧
      (∃ s, (ca.Signer.Sign req s).1 = (resp, none)) ∧
      (pem.Decode resp).1 = some block ∧ block.type = "CERTIFICATE" ∧
      (IssueCertificate pem ca csr w).cert = ⟨block.bytes, AcmeStatus.StatusValid⟩ ∧
      Event.AddCertificate block.bytes id none ∈ calls pem ca csr w ∧
      (∃ s, (ca.SA.AddCertificate block.bytes s).1 = (id, none)) ∧
      ∀ der id' e, Event.AddCertificate der id' e ∈ calls pem ca csr w → der = block.bytes) ∧
    (calls pem ca csr w).countP Event.isCommit = 1 ∧
    (∃ front c, calls pem ca csr w = front ++ [Event.Commit c] ∧
      ∃ s, (ca.DB.Commit s).1 = c) ∧
    (calls pem ca csr w).countP Event.isRollback = 0 := by
  have hin : ∀ ev, ev ∈ (IssueCertificate pem ca csr w).trace → ev.isCall = true →
      ev ∈ calls pem ca csr w := fun ev ht hc => (mem_calls pem ca csr w ev).mpr ⟨ht, hc⟩
  obtain ⟨h1, ⟨req, resp, block, id, h2, h3, h4, h5, h6, h7⟩, h8, h9⟩ :=
    trace_successful_issuance pem ca csr w hnamed
      (fun id e ht => hpolicy id e (hin _ ht rfl))
      (fun v e ht => hserial v e (hin _ ht rfl))
      (fun req resp se ht => hsign req resp se (hin _ ht rfl))
      (fun der id e ht => hadd der id e (hin _ ht rfl))
  have hs := hin _ h2 rfl
  have ha := hin _ h6 rfl
  refine ⟨h1, ⟨req, resp, block, id, hs, calls_answered pem ca csr w _ hs, h3, h4, h5, ha,
    calls_answered pem ca csr w _ ha,
    fun der id' e hm => h7 der id' e ((mem_calls pem ca csr w _).mp hm).1⟩, ?_,
    calls_end_with_commit pem ca csr w h1, ?_⟩
  · rw [countP_calls pem ca csr w _ isCall_of_isCommit, h8]
  · rw [countP_calls pem ca csr w _ isCall_of_isRollback, h9]

/-- Claim C4 at a concrete input. The request for `example.com` with no common name over
the ledger, prefix 1 and the counter at 0: serial 1 is allocated, the
signer receives the serial string `0100000000000001` and answers with a `CERTIFICATE` block
holding its characters, and the call returns those bytes with status valid. The ledger shows
the counter committed at 1 with no transaction active, the one request at the signer, and
the certificate in storage. -/
theorem C4_successful_issuance_witness :
    (IssueCertificate tagPem (ledgerCA [] echoSign none) exampleCSR (Ledger.fresh 0)).world =
      ⟨⟨1, none⟩, ["example.com", "example.com"],
        [⟨[2, 48, 0], "ee", ["example.com"], ⟨"example.com"⟩,
          "0100000000000001"⟩],
        [(stringBytes "0100000000000001")]⟩ ∧
    (IssueCertificate tagPem (ledgerCA [] echoSign none) exampleCSR (Ledger.fresh 0)).cert =
      ⟨(stringBytes "0100000000000001"),
        AcmeStatus.StatusValid⟩ ∧
    (IssueCertificate tagPem (ledgerCA [] echoSign none) exampleCSR (Ledger.fresh 0)).err =
      none ∧
    (calls tagPem (ledgerCA [] echoSign none) exampleCSR (Ledger.fresh 0)).countP
      Event.isCommit = 1 ∧
    (calls tagPem (ledgerCA [] echoSign none) exampleCSR (Ledger.fresh 0)).countP
      Event.isRollback = 0 := by
  have hc : calls tagPem (ledgerCA [] echoSign none) exampleCSR (Ledger.fresh 0) =
      [Event.WillingToIssue (dnsIdentifier "example.com") none,
        Event.WillingToIssue (dnsIdentifier "example.com") none,
        Event.Begin none, Event.IncrementAndGetSerial 1 none,
        Event.Sign ⟨[2, 48, 0], "ee", ["example.com"], ⟨"example.com"⟩,
          "0100000000000001"⟩
          (1 :: stringBytes "0100000000000001") none,
        Event.AddCertificate (stringBytes "0100000000000001")
          "id" none,
        Event.Commit none] := by decide
  have h := C4_successful_issuance tagPem (ledgerCA [] echoSign none) exampleCSR
    (Ledger.fresh 0) (Or.inr (by decide)) (by intro id e; rw [hc]; simp)
    (by intro v e; rw [hc]; simp)
    (by
      intro req resp se hmem
      rw [hc] at hmem
      simp at hmem
      obtain ⟨-, rfl, rfl⟩ := hmem
      simp [tagPem])
    (by intro der id e; rw [hc]; simp)
  exact ⟨by decide, by decide, h.1, h.2.2.1, h.2.2.2.2⟩

/-- Claim C14. Every signing request that the signer of `ca` receives during the call has: as
`Subject.CN` the subject common name of the CSR when that is not empty and otherwise the
first DNS name; as `Hosts` the DNS names of the CSR, unchanged, when there are any, and
otherwise the list holding `Subject.CN` alone; as `Profile` the profile of the CA; as
`SerialSeq` the serial string formatted from the prefix of the CA and the one value the
database of `ca` returned from `IncrementAndGetSerial` in this call; as `Request` the PEM
encoding of the raw CSR under the label `CERTIFICATE REQUEST`. The requests are those the
signer of `ca` was given, and the value is the one the database of `ca` returned. -/
theorem C14_signing_request {σ : Type} (pem : PemCodec) (ca : CertificateAuthorityImpl σ)
    (csr : CertificateRequest) (w : σ) (req : SignRequest) (resp : Bytes)
    (se : Option CollabError) (h : Event.Sign req resp se ∈ calls pem ca csr w) :
    (∃ s, (ca.Signer.Sign req s).1 = (resp, se)) ∧
    (csr.Subject.CommonName ≠ "" → req.Subject.CN = csr.Subject.CommonName) ∧
    (csr.Subject.CommonName = "" → csr.DNSNames.head? = some req.Subject.CN) ∧
    (csr.DNSNames ≠ [] → req.Hosts = csr.DNSNames) ∧
    (csr.DNSNames = [] → req.Hosts = [req.Subject.CN]) ∧
    req.Profile = ca.profile ∧
    (∃ v, Event.IncrementAndGetSerial v none ∈ calls pem ca csr w ∧
      (∃ s, (ca.DB.IncrementAndGetSerial s).1 = (v, none)) ∧
      req.SerialSeq = serialHex ca.Prefix v ∧
      ∀ v' r, Event.IncrementAndGetSerial v' r ∈ calls pem ca csr w → v' = v) ∧
    req.Request = pem.EncodeToMemory ⟨"CERTIFICATE REQUEST", csr.Raw⟩ := by
  obtain ⟨h1, h2, h3, h4, h5, ⟨v, h6, h7, h8⟩, h9⟩ :=
    trace_signing_request pem ca csr w req resp se ((mem_calls pem ca csr w _).mp h).1
  have hv : Event.IncrementAndGetSerial v none ∈ calls pem ca csr w :=
    (mem_calls pem ca csr w _).mpr ⟨h6, rfl⟩
  exact ⟨calls_answered pem ca csr w _ h, h1, h2, h3, h4, h5,
    ⟨v, hv, calls_answered pem ca csr w _ hv, h7,
      fun v' r hm => h8 v' r ((mem_calls pem ca csr w _).mp hm).1⟩, h9⟩

/-- Claim C14 at a concrete input. The request with common name `good.example` and DNS names
`ok.example`, `evil.com`, `later.example` over the ledger with a policy that approves: the
ledger shows the one request the signer was given, with the common name of the CSR, its DNS
names in order, the profile `ee`, the serial string of prefix 1 and value 1, and the encoded
CSR; the certificate returned holds the characters of that serial string. -/
theorem C14_signing_request_witness :
    (IssueCertificate tagPem (ledgerCA [] echoSign none) multiCSR (Ledger.fresh 0)).world.signed =
      [⟨[2, 48, 0], "ee", ["ok.example", "evil.com", "later.example"], ⟨"good.example"⟩,
        "0100000000000001"⟩] ∧
    (IssueCertificate tagPem (ledgerCA [] echoSign none) multiCSR (Ledger.fresh 0)).cert.DER =
      (stringBytes "0100000000000001") ∧
    ((⟨"good.example"⟩ : Subject).CN = multiCSR.Subject.CommonName ∧
      ["ok.example", "evil.com", "later.example"] = multiCSR.DNSNames ∧
      "ee" = (ledgerCA [] echoSign none).profile) :=
  have h := C14_signing_request tagPem (ledgerCA [] echoSign none) multiCSR (Ledger.fresh 0)
    ⟨[2, 48, 0], "ee", ["ok.example", "evil.com", "later.example"], ⟨"good.example"⟩,
      "0100000000000001"⟩
    (1 :: stringBytes "0100000000000001") none (by decide)
  ⟨by decide, by decide, h.2.1 (by decide), h.2.2.2.1 (by decide), h.2.2.2.2.2.1⟩

/-- Claim C20. If the database of `ca` returned the value `n` from `IncrementAndGetSerial`
without error, and the prefix `p` of the CA is at least 256 with `n` not negative, or `n` is
at least 2^56 with `p` not negative, then the serial string formatted from `p` and `n` has
more than 16 characters, and the signer of `ca` is called with a request that carries
exactly that string. The calls are those the collaborators of `ca` received themselves. -/
theorem C20_no_range_check {σ : Type} (pem : PemCodec) (ca : CertificateAuthorityImpl σ)
    (csr : CertificateRequest) (w : σ) (n : Int)
    (hrange : (256 ≤ ca.Prefix ∧ 0 ≤ n) ∨ (2 ^ 56 ≤ n ∧ 0 ≤ ca.Prefix))
    (h : Event.IncrementAndGetSerial n none ∈ calls pem ca csr w) :
    (∃ s, (ca.DB.IncrementAndGetSerial s).1 = (n, none)) ∧
    16 < (serialHex ca.Prefix n).length ∧
    ∃ req resp se, Event.Sign req resp se ∈ calls pem ca csr w ∧
      (∃ s, (ca.Signer.Sign req s).1 = (resp, se)) ∧
      req.SerialSeq = serialHex ca.Prefix n ∧ 16 < req.SerialSeq.length := by
  obtain ⟨h1, req, resp, se, h2, h3, h4⟩ :=
    trace_no_range_check pem ca csr w n hrange ((mem_calls pem ca csr w _).mp h).1
  have hs : Event.Sign req resp se ∈ calls pem ca csr w :=
    (mem_calls pem ca csr w _).mpr ⟨h2, rfl⟩
  exact ⟨calls_answered pem ca csr w _ h, h1, req, resp, se, hs,
    calls_answered pem ca csr w _ hs, h3, h4⟩

/-- Claim C20 at a concrete input. The request for `example.com` over the ledger with prefix 1
and the counter at 2^56 - 1: the value 2^56 is allocated, and the ledger shows that the
signer was given the serial string `01100000000000000` of 17 characters; the counter is
committed at 2^56. For prefix 256 and value 0 the string is `10000000000000000`. -/
theorem C20_no_range_check_witness :
    (IssueCertificate tagPem (ledgerCA [] echoSign none) exampleCSR
        (Ledger.fresh (2 ^ 56 - 1))).world.signed =
      [⟨[2, 48, 0], "ee", ["example.com"], ⟨"example.com"⟩, "01100000000000000"⟩] ∧
    (IssueCertificate tagPem (ledgerCA [] echoSign none) exampleCSR
        (Ledger.fresh (2 ^ 56 - 1))).world.db = ⟨2 ^ 56, none⟩ ∧
    serialHex 256 0 = "10000000000000000" ∧
    16 < (serialHex (ledgerCA [] echoSign none).Prefix (2 ^ 56)).length :=
  ⟨by decide, by decide, by decide,
    (C20_no_range_check tagPem (ledgerCA [] echoSign none) exampleCSR
      (Ledger.fresh (2 ^ 56 - 1)) (2 ^ 56) (Or.inr (by decide)) (by decide)).2.1⟩

/-- A run in which `Begin` was called has the approvals of the effective common name and of
every effective host name in its trace. -/
theorem approvals_before_begin {σ : Type} (pem : PemCodec) (ca : CertificateAuthorityImpl σ)
    (csr : CertificateRequest) (w : σ)
    (h : (IssueCertificate pem ca csr w).trace.countP Event.isBegin ≠ 0) :
    ∃ cn, effectiveCommonName csr = some cn ∧
      ∀ n ∈ cn :: effectiveHostNames csr cn,
        Event.WillingToIssue (dnsIdentifier n) none ∈ (IssueCertificate pem ca csr w).trace := by
  obtain ⟨c, e', t, -, -, ht, hp⟩ := run_shape pem ca csr w
  rw [ht] at h
  rw [ht]
  cases hp
  case missingHostname => simp [Event.isBegin] at h
  case policyRejection =>
    simp [List.countP_append, List.countP_cons, countP_approvals, Event.isBegin] at h
  all_goals
    refine ⟨_, ‹effectiveCommonName csr = some _›, ?_⟩
    intro n hn
    exact List.mem_append_left _ ((mem_approvals _ _).mpr ⟨n, hn, rfl⟩)

/-- A run in which `Begin` was not called ended at the missing-hostname check or at a policy
check that returned an error. -/
theorem stopped_before_begin {σ : Type} (pem : PemCodec) (ca : CertificateAuthorityImpl σ)
    (csr : CertificateRequest) (w : σ)
    (h : (IssueCertificate pem ca csr w).trace.countP Event.isBegin = 0) :
    (csr.Subject.CommonName = "" ∧ csr.DNSNames = []) ∨
      ∃ id e, Event.WillingToIssue id (some e) ∈ (IssueCertificate pem ca csr w).trace := by
  obtain ⟨c, e', t, -, -, ht, hp⟩ := run_shape pem ca csr w
  rw [ht] at h
  rw [ht]
  cases hp
  case missingHostname h1 h2 => exact Or.inl ⟨h1, h2⟩
  case policyRejection cn pre name post ce h1 h2 =>
    exact Or.inr ⟨dnsIdentifier name, ce, by simp⟩
  all_goals
    simp [List.countP_append, List.countP_cons, countP_approvals, Event.isBegin] at h

/-- A name of the request is among the names the call works with. -/
theorem name_is_checked (csr : CertificateRequest) (cn name : String)
    (hcn : effectiveCommonName csr = some cn)
    (hname : (csr.Subject.CommonName ≠ "" ∧ name = csr.Subject.CommonName) ∨
      name ∈ csr.DNSNames) : name ∈ cn :: effectiveHostNames csr cn := by
  obtain ⟨n1, -, n3, -⟩ := effective_names csr cn hcn
  rcases hname with ⟨hne, rfl⟩ | hmem
  · rw [n1 hne]; simp
  · have hne : csr.DNSNames ≠ [] := fun hnil => by simp [hnil] at hmem
    rw [n3 hne]
    simp [hmem]

/-- If the policy authority of `ca` refuses a name of the request in every world, a refusal is
in the journal of the run. -/
theorem refusal_recorded {σ : Type} (pem : PemCodec) (ca : CertificateAuthorityImpl σ)
    (csr : CertificateRequest) (w : σ) (name : String)
    (hname : (csr.Subject.CommonName ≠ "" ∧ name = csr.Subject.CommonName) ∨
      name ∈ csr.DNSNames)
    (hrefuse : ∀ s, (ca.PA.WillingToIssue (dnsIdentifier name) s).1 ≠ none) :
    ∃ id e, Event.WillingToIssue id (some e) ∈ calls pem ca csr w := by
  by_cases hb : (IssueCertificate pem ca csr w).trace.countP Event.isBegin = 0
  · rcases stopped_before_begin pem ca csr w hb with ⟨h1, h2⟩ | ⟨id, e, hmem⟩
    · rcases hname with ⟨hne, -⟩ | hmem
      · exact absurd h1 hne
      · rw [h2] at hmem; simp at hmem
    · exact ⟨id, e, (mem_calls pem ca csr w _).mpr ⟨hmem, rfl⟩⟩
  · obtain ⟨cn, hcn, happ⟩ := approvals_before_begin pem ca csr w hb
    have hmem := happ name (name_is_checked csr cn name hcn hname)
    have hcall : Event.WillingToIssue (dnsIdentifier name) none ∈ calls pem ca csr w :=
      (mem_calls pem ca csr w _).mpr ⟨hmem, rfl⟩
    obtain ⟨s, hs⟩ := calls_answered pem ca csr w _ hcall
    exact absurd hs (hrefuse s)

theorem isCall_of_isRejection (ev : Event) (h : ev.isRejection = true) : ev.isCall = true := by
  cases ev <;> simp_all [Event.isRejection, Event.isCall]

/-- Claim C1. If the policy authority of `ca` returned an error to a call of the run, or if it
refuses, in every world, the common name of the request or one of its DNS names, then
`IssueCertificate` returns an error and the database, the signer and the storage authority of
`ca` receive no `Begin`, `IncrementAndGetSerial`, `Sign` or `AddCertificate`. And whenever the
signer of `ca` receives a request, the policy authority of `ca` was called before, and
returned `nil`, for the common name of that request and for each of its hosts. The calls are
those the collaborators of `ca` received themselves. -/
theorem C1_policy_short_circuit {σ : Type} (pem : PemCodec) (ca : CertificateAuthorityImpl σ)
    (csr : CertificateRequest) (w : σ) :
    (((∃ id e, Event.WillingToIssue id (some e) ∈ calls pem ca csr w) ∨
        (∃ name, ((csr.Subject.CommonName ≠ "" ∧ name = csr.Subject.CommonName) ∨
            name ∈ csr.DNSNames) ∧
          ∀ s, (ca.PA.WillingToIssue (dnsIdentifier name) s).1 ≠ none)) →
      (IssueCertificate pem ca csr w).err ≠ none ∧
      ∀ ev ∈ calls pem ca csr w,
        ev.isBegin = false ∧ ev.isIncrementAndGetSerial = false ∧ ev.isSign = false ∧
          ev.isAddCertificate = false) ∧
    (∀ pre req resp se post,
      calls pem ca csr w = pre ++ Event.Sign req resp se :: post →
      (∃ s, (ca.Signer.Sign req s).1 = (resp, se)) ∧
      (Event.WillingToIssue (dnsIdentifier req.Subject.CN) none ∈ pre ∧
        ∃ s, (ca.PA.WillingToIssue (dnsIdentifier req.Subject.CN) s).1 = none) ∧
      ∀ host ∈ req.Hosts, Event.WillingToIssue (dnsIdentifier host) none ∈ pre ∧
        ∃ s, (ca.PA.WillingToIssue (dnsIdentifier host) s).1 = none) := by
  constructor
  · intro h
    have hrec : ∃ id e, Event.WillingToIssue id (some e) ∈ calls pem ca csr w := by
      rcases h with h | ⟨name, hname, hrefuse⟩
      · exact h
      · exact refusal_recorded pem ca csr w name hname hrefuse
    obtain ⟨id, e, hmem⟩ := hrec
    obtain ⟨h1, h2⟩ := (trace_policy_short_circuit pem ca csr w).1
      ⟨id, e, ((mem_calls pem ca csr w _).mp hmem).1⟩
    exact ⟨h1, fun ev hev => h2 ev ((mem_calls pem ca csr w _).mp hev).1⟩
  · intro pre req resp se post hsplit
    have hs : Event.Sign req resp se ∈ calls pem ca csr w := by rw [hsplit]; simp
    obtain ⟨cn, b, v, tail, hcn, hreq, ht, htail⟩ :=
      sign_reached pem ca csr w req resp se ((mem_calls pem ca csr w _).mp hs).1
    have hc : calls pem ca csr w = approvals (cn :: effectiveHostNames csr cn) ++
        (Event.Begin b :: Event.IncrementAndGetSerial v none :: Event.Sign req resp se ::
          tail.filter Event.isCall) := by
      rw [calls_eq, ht, List.filter_append, filter_isCall_approvals]
      simp [Event.isCall]
    rw [hc] at hsplit
    obtain ⟨mid, hpre, htl⟩ := approvals_split_sign _ _ _ _ _ _ _ hsplit
    have hnot : Event.Sign req resp se ∉ tail.filter Event.isCall := by
      intro hm
      have := (htail _ (List.mem_filter.mp hm).1).2.2.2
      simp [Event.isSign] at this
    obtain ⟨hmid, -⟩ := split_at_third _ _ _ _ _ _ _ (by simp) (by simp) hnot htl
    subst hmid
    have hin : ∀ n ∈ cn :: effectiveHostNames csr cn,
        Event.WillingToIssue (dnsIdentifier n) none ∈ pre ∧
          ∃ s, (ca.PA.WillingToIssue (dnsIdentifier n) s).1 = none := by
      intro n hn
      have hmem : Event.WillingToIssue (dnsIdentifier n) none ∈
          approvals (cn :: effectiveHostNames csr cn) := (mem_approvals _ _).mpr ⟨n, hn, rfl⟩
      refine ⟨by rw [hpre]; exact List.mem_append_left _ hmem, ?_⟩
      exact calls_answered pem ca csr w _ (by rw [hc]; exact List.mem_append_left _ hmem)
    subst hreq
    exact ⟨calls_answered pem ca csr w _ hs, hin cn (by simp [signRequest]),
      fun host hh => hin host (by simp only [signRequest] at hh; simp [hh])⟩

/-- Claim C1 at a concrete input. The request with common name `good.example` and DNS names
`ok.example`, `evil.com`, `later.example` over the ledger with a policy that refuses
`evil.com`, a name met inside the loop over the host names: an error is returned, and the
ledger shows the allocator untouched, no request at the signer and nothing stored. And the
request for `example.com` and `www.example.com` under a policy that approves, whose journal
is cut at the call of the signer. -/
theorem C1_policy_short_circuit_witness :
    ((IssueCertificate tagPem (ledgerCA ["evil.com"] echoSign none) multiCSR
        (Ledger.fresh 0)).world =
      ⟨⟨0, none⟩, ["good.example", "ok.example", "evil.com"], [], []⟩ ∧
    (IssueCertificate tagPem (ledgerCA ["evil.com"] echoSign none) multiCSR
        (Ledger.fresh 0)).err ≠ none ∧
    ∀ ev ∈ calls tagPem (ledgerCA ["evil.com"] echoSign none) multiCSR (Ledger.fresh 0),
      ev.isBegin = false ∧ ev.isIncrementAndGetSerial = false ∧ ev.isSign = false ∧
        ev.isAddCertificate = false) ∧
    Event.WillingToIssue (dnsIdentifier "www.example.com") none ∈
      [Event.WillingToIssue (dnsIdentifier "example.com") none,
        Event.WillingToIssue (dnsIdentifier "example.com") none,
        Event.WillingToIssue (dnsIdentifier "www.example.com") none,
        Event.Begin none, Event.IncrementAndGetSerial 1 none] :=
  ⟨⟨by decide,
    (C1_policy_short_circuit tagPem (ledgerCA ["evil.com"] echoSign none) multiCSR
      (Ledger.fresh 0)).1
      (Or.inr ⟨"evil.com", Or.inr (by decide), fun s => by simp [ledgerCA, dnsIdentifier]⟩)⟩,
    (((C1_policy_short_circuit tagPem (ledgerCA [] echoSign none) twoNameCSR
      (Ledger.fresh 0)).2
      [Event.WillingToIssue (dnsIdentifier "example.com") none,
        Event.WillingToIssue (dnsIdentifier "example.com") none,
        Event.WillingToIssue (dnsIdentifier "www.example.com") none,
        Event.Begin none, Event.IncrementAndGetSerial 1 none]
      ⟨[2, 48, 0], "ee", ["example.com", "www.example.com"], ⟨"example.com"⟩,
        "0100000000000001"⟩
      (1 :: stringBytes "0100000000000001") none
      [Event.AddCertificate (stringBytes "0100000000000001")
        "id" none, Event.Commit none]
      (by decide)).2.2 "www.example.com" (by decide)).1⟩

/-- Claim C7. If the policy authority of `ca` returned an error to a call of the run, or if it
refuses, in every world, the common name of the request or one of its DNS names, then the
names to check (the effective common name, then the host names in order) split into names
the policy authority was asked about and approved, the name it refused, and names it was
never asked about: its calls are the approvals of the first part followed by the refusal,
the error is `Policy forbids issuing for name ` followed by the refused name, and the
database of `ca` receives no call. The calls are those the policy authority and the database
of `ca` received themselves, with the answers they gave. -/
theorem C7_first_rejected_name {σ : Type} (pem : PemCodec) (ca : CertificateAuthorityImpl σ)
    (csr : CertificateRequest) (w : σ)
    (h : (∃ ev ∈ calls pem ca csr w, ev.isRejection = true) ∨
      (∃ name, ((csr.Subject.CommonName ≠ "" ∧ name = csr.Subject.CommonName) ∨
          name ∈ csr.DNSNames) ∧
        ∀ s, (ca.PA.WillingToIssue (dnsIdentifier name) s).1 ≠ none)) :
    (∃ cn pre name post e,
      effectiveCommonName csr = some cn ∧
      cn :: effectiveHostNames csr cn = pre ++ name :: post ∧
      (IssueCertificate pem ca csr w).err =
        some (GoError.errorsNew ("Policy forbids issuing for name " ++ name)) ∧
      calls pem ca csr w =
        approvals pre ++ [Event.WillingToIssue (dnsIdentifier name) (some e)] ∧
      (∀ n ∈ pre, ∃ s, (ca.PA.WillingToIssue (dnsIdentifier n) s).1 = none) ∧
      ∃ s, (ca.PA.WillingToIssue (dnsIdentifier name) s).1 = some e) ∧
    ∀ ev ∈ calls pem ca csr w,
      ev.isBegin = false ∧ ev.isIncrementAndGetSerial = false ∧ ev.isCommit = false ∧
        ev.isRollback = false := by
  have hrec : ∃ ev ∈ (IssueCertificate pem ca csr w).trace, ev.isRejection = true := by
    rcases h with ⟨ev, hev, hr⟩ | ⟨name, hname, hrefuse⟩
    · exact ⟨ev, ((mem_calls pem ca csr w _).mp hev).1, hr⟩
    · obtain ⟨id, e, hmem⟩ := refusal_recorded pem ca csr w name hname hrefuse
      exact ⟨_, ((mem_calls pem ca csr w _).mp hmem).1, rfl⟩
  obtain ⟨⟨cn, pre, name, post, e, h1, h2, h3, h4⟩, h5⟩ :=
    trace_first_rejected_name pem ca csr w hrec
  have hc : calls pem ca csr w =
      approvals pre ++ [Event.WillingToIssue (dnsIdentifier name) (some e)] := by
    rw [calls_eq, h4, List.filter_append, filter_isCall_approvals]
    simp [Event.isCall]
  refine ⟨⟨cn, pre, name, post, e, h1, h2, h3, hc, ?_, ?_⟩,
    fun ev hev => h5 ev ((mem_calls pem ca csr w _).mp hev).1⟩
  · intro n hn
    exact calls_answered pem ca csr w (Event.WillingToIssue (dnsIdentifier n) none) (by
      rw [hc]
      exact List.mem_append_left _ ((mem_approvals _ _).mpr ⟨n, hn, rfl⟩))
  · exact calls_answered pem ca csr w (Event.WillingToIssue (dnsIdentifier name) (some e))
      (by rw [hc]; simp)

/-- Claim C7 at a concrete input. The request with common name `good.example` and DNS names
`ok.example`, `evil.com`, `later.example` over the ledger with a policy that refuses
`evil.com`: the error names `evil.com`; the policy authority was asked about `good.example`,
`ok.example` and `evil.com`, in this order, and never about `later.example`; the allocator
is untouched. -/
theorem C7_first_rejected_name_witness :
    (IssueCertificate tagPem (ledgerCA ["evil.com"] echoSign none) multiCSR
        (Ledger.fresh 0)).err =
      some (GoError.errorsNew "Policy forbids issuing for name evil.com") ∧
    (IssueCertificate tagPem (ledgerCA ["evil.com"] echoSign none) multiCSR
        (Ledger.fresh 0)).world =
      ⟨⟨0, none⟩, ["good.example", "ok.example", "evil.com"], [], []⟩ ∧
    calls tagPem (ledgerCA ["evil.com"] echoSign none) multiCSR (Ledger.fresh 0) =
      [Event.WillingToIssue (dnsIdentifier "good.example") none,
        Event.WillingToIssue (dnsIdentifier "ok.example") none,
        Event.WillingToIssue (dnsIdentifier "evil.com") (some ⟨"name is blacklisted"⟩)] ∧
    ∀ ev ∈ calls tagPem (ledgerCA ["evil.com"] echoSign none) multiCSR (Ledger.fresh 0),
      ev.isBegin = false ∧ ev.isIncrementAndGetSerial = false ∧ ev.isCommit = false ∧
        ev.isRollback = false :=
  ⟨by decide, by decide, by decide,
    (C7_first_rejected_name tagPem (ledgerCA ["evil.com"] echoSign none) multiCSR
      (Ledger.fresh 0)
      (Or.inr ⟨"evil.com", Or.inr (by decide), fun s => by simp [ledgerCA, dnsIdentifier]⟩)).2⟩

/-- Claim C17. For a request with at least one name, if the policy authority of `ca` returned
no error to any call of the run: the calls the collaborators of `ca` received start with the
policy checks of the effective common name and then of each effective host name in order,
each as a DNS identifier and each approved by the policy authority of `ca`; `Begin` follows,
and the policy authority is not called after it; it is called `1 + len(hosts)` times in all;
and when the common name was taken from the first DNS name, or the host list from the
common name, its first two calls are both for that name. -/
theorem C17_policy_check_sequence {σ : Type} (pem : PemCodec)
    (ca : CertificateAuthorityImpl σ) (csr : CertificateRequest) (w : σ)
    (hnamed : csr.Subject.CommonName ≠ "" ∨ csr.DNSNames ≠ [])
    (hpolicy : ∀ ev ∈ calls pem ca csr w, ev.isRejection = false) :
    ∃ cn b rest, effectiveCommonName csr = some cn ∧
      calls pem ca csr w =
        approvals (cn :: effectiveHostNames csr cn) ++ Event.Begin b :: rest ∧
      (∀ n ∈ cn :: effectiveHostNames csr cn,
        ∃ s, (ca.PA.WillingToIssue (dnsIdentifier n) s).1 = none) ∧
      (∃ s, (ca.DB.Begin s).1 = b) ∧
      (∀ ev ∈ rest, ev.isWillingToIssue = false) ∧
      (∀ id r, Event.WillingToIssue id r ∈ calls pem ca csr w →
        id.type = IdentifierType.IdentifierDNS) ∧
      (calls pem ca csr w).countP Event.isWillingToIssue =
        1 + (effectiveHostNames csr cn).length ∧
      ((csr.Subject.CommonName = "" ∨ csr.DNSNames = []) →
        ∃ more, calls pem ca csr w =
          Event.WillingToIssue (dnsIdentifier cn) none ::
            Event.WillingToIssue (dnsIdentifier cn) none :: more) := by
  have hp : ∀ ev ∈ (IssueCertificate pem ca csr w).trace, ev.isRejection = false := by
    intro ev hev
    cases hr : ev.isRejection with
    | false => rfl
    | true =>
      have := hpolicy ev ((mem_calls pem ca csr w _).mpr ⟨hev, isCall_of_isRejection ev hr⟩)
      rw [hr] at this
      exact absurd this (by simp)
  obtain ⟨cn, b, rest, h1, h2, h3, h4, h5, h6⟩ :=
    trace_policy_check_sequence pem ca csr w hnamed hp
  have hc : calls pem ca csr w = approvals (cn :: effectiveHostNames csr cn) ++
      Event.Begin b :: rest.filter Event.isCall := by
    rw [calls_eq, h2, List.filter_append, filter_isCall_approvals]
    simp [Event.isCall]
  refine ⟨cn, b, rest.filter Event.isCall, h1, hc, ?_, ?_, ?_, ?_, ?_, ?_⟩
  · intro n hn
    exact calls_answered pem ca csr w (Event.WillingToIssue (dnsIdentifier n) none) (by
      rw [hc]
      exact List.mem_append_left _ ((mem_approvals _ _).mpr ⟨n, hn, rfl⟩))
  · exact calls_answered pem ca csr w (Event.Begin b) (by rw [hc]; simp)
  · intro ev hev
    exact h3 ev (List.mem_filter.mp hev).1
  · intro id r hm
    exact h4 id r ((mem_calls pem ca csr w _).mp hm).1
  · rw [countP_calls pem ca csr w _ isCall_of_isWillingToIssue, h5]
  · intro hd
    obtain ⟨more, hmore⟩ := h6 hd
    exact ⟨more.filter Event.isCall, by rw [calls_eq, hmore]; simp [Event.isCall]⟩

/-- Claim C17 at a concrete input. The request for `example.com` and `www.example.com` with
no common name over the ledger with a policy that approves: the ledger shows that the
policy authority was asked about `example.com`, `example.com` and `www.example.com`, in this
order, three calls in all. -/
theorem C17_policy_check_sequence_witness :
    (IssueCertificate tagPem (ledgerCA [] echoSign none) twoNameCSR
        (Ledger.fresh 0)).world.asked = ["example.com", "example.com", "www.example.com"] ∧
    ∃ cn b rest, effectiveCommonName twoNameCSR = some cn ∧
      calls tagPem (ledgerCA [] echoSign none) twoNameCSR (Ledger.fresh 0) =
        approvals (cn :: effectiveHostNames twoNameCSR cn) ++ Event.Begin b :: rest ∧
      (∀ n ∈ cn :: effectiveHostNames twoNameCSR cn,
        ∃ s, ((ledgerCA [] echoSign none).PA.WillingToIssue (dnsIdentifier n) s).1 = none) ∧
      (∃ s, ((ledgerCA [] echoSign none).DB.Begin s).1 = b) ∧
      (∀ ev ∈ rest, ev.isWillingToIssue = false) ∧
      (∀ id r, Event.WillingToIssue id r ∈
          calls tagPem (ledgerCA [] echoSign none) twoNameCSR (Ledger.fresh 0) →
        id.type = IdentifierType.IdentifierDNS) ∧
      (calls tagPem (ledgerCA [] echoSign none) twoNameCSR (Ledger.fresh 0)).countP
          Event.isWillingToIssue = 1 + (effectiveHostNames twoNameCSR cn).length ∧
      ((twoNameCSR.Subject.CommonName = "" ∨ twoNameCSR.DNSNames = []) →
        ∃ more, calls tagPem (ledgerCA [] echoSign none) twoNameCSR (Ledger.fresh 0) =
          Event.WillingToIssue (dnsIdentifier cn) none ::
            Event.WillingToIssue (dnsIdentifier cn) none :: more) :=
  ⟨by decide,
    C17_policy_check_sequence tagPem (ledgerCA [] echoSign none) twoNameCSR (Ledger.fresh 0)
      (Or.inr (by decide)) (by decide)⟩

end Boulder
